import Mathlib

/-!
Verification of the Next-to-React converter (files `converter.py`,
`nextjs_converter.py`, `nextjs_converterV2.py`).

Texts are modelled as `List Char`.  The Python string and `re` operations the
source uses are embedded executably below: a small backtracking regex matcher
(`matchSeq`) covering exactly the constructs appearing in the source patterns
(literals, character classes, greedy `*`/`+`, lazy `*?`, optional chars and
capture groups, with Python's leftmost-match, non-overlapping `re.sub`,
`re.search` and `re.findall` driving loops), Python `str.replace`,
`str.splitlines`, `str.split`, `str.strip`, substring tests, UTF-8 encoding and
a full MD5 implementation (the verifier fingerprints tag sequences with
`hashlib.md5`).
-/

set_option linter.unusedVariables false
set_option linter.unnecessarySeqFocus false

namespace NextConv

/-- The characters of a string literal, our model of Python `str`. -/
def chars (s : String) : List Char := s.data

/-- Characters matched by Python's regex class `\s` on `str` (the exact set:
ASCII whitespace plus the Unicode whitespace characters). -/
def isSpacePy (c : Char) : Bool :=
  c == ' ' || c == '\t' || c == '\n' || c == '\x0b' || c == '\x0c' || c == '\r' ||
  c == '\x1c' || c == '\x1d' || c == '\x1e' || c == '\x1f' || c == '\x85' ||
  c == '\xa0' || c == ' ' || (' ' ≤ c && c ≤ ' ') ||
  c == ' ' || c == ' ' || c == ' ' || c == ' ' || c == '　'

/-- Line-break characters of Python `str.splitlines` (the exact set). -/
def isLineBreakPy (c : Char) : Bool :=
  c == '\n' || c == '\r' || c == '\x0b' || c == '\x0c' ||
  c == '\x1c' || c == '\x1d' || c == '\x1e' || c == '\x85' ||
  c == ' ' || c == ' '

/-- Characters matched by the regex class `\d` (restricted to the ASCII
decimal digits; no input in this development carries non-ASCII digits). -/
def isDigitPy (c : Char) : Bool := '0' ≤ c && c ≤ '9'

/-- The class `['"]` used by the source patterns for quote characters. -/
def isQuotePy (c : Char) : Bool := c == '"' || c == '\x27'

/-- Python regex `.` without `re.DOTALL`: any character except newline. -/
def notNL (c : Char) : Bool := c != '\n'

/-- Python regex `.` under `re.DOTALL`: any character. -/
def anyCh (_ : Char) : Bool := true

/-- ASCII lowering, modelling `str.lower()` on the ASCII texts used here. -/
def lowerPy (s : List Char) : List Char :=
  s.map fun c => if 'A' ≤ c && c ≤ 'Z' then Char.ofNat (c.toNat + 32) else c

/-- Python's substring test `pat in s`. -/
def pySubstr : List Char → List Char → Bool
  | pat, [] => pat.isEmpty
  | pat, c :: t => pat.isPrefixOf (c :: t) || pySubstr pat t

/-- `pat` occurs as a contiguous substring of `s`. -/
def Occurs (pat s : List Char) : Prop := ∃ a b, s = a ++ pat ++ b

/-- Worker for `splitlinesPy`, carrying the current (reversed) line.  The
fuel argument (instantiated with the input length, which bounds the number of
steps) makes the recursion structural. -/
def splitAuxF : Nat → List Char → List Char → List (List Char)
  | _, [], acc => if acc.isEmpty then [] else [acc.reverse]
  | 0, _ :: _, _ => []
  | fuel + 1, c :: r, acc =>
    if isLineBreakPy c then
      acc.reverse ::
        splitAuxF fuel (if c == '\r' && r.head? == some '\n' then r.tail else r) []
    else splitAuxF fuel r (c :: acc)

/-- Python `str.splitlines()`: split at the line-break characters, treating
`\r\n` as one break and producing no trailing empty line. -/
def splitlinesPy (s : List Char) : List (List Char) := splitAuxF s.length s []

/-- Python `str.replace(needle, repl)`: all non-overlapping occurrences,
scanning left to right, never rescanning replacement text (fuel as in
`splitAuxF`). -/
def replaceAllLitF (fuel : Nat) (needle repl : List Char) (s : List Char) : List Char :=
  match fuel, s with
  | _, [] => []
  | 0, _ :: _ => []
  | fuel + 1, c :: t =>
    if needle ≠ [] ∧ needle.isPrefixOf (c :: t) then
      repl ++ replaceAllLitF fuel needle repl ((c :: t).drop needle.length)
    else
      c :: replaceAllLitF fuel needle repl t

/-- Python `str.replace(needle, repl)`. -/
def replaceAllLit (needle repl s : List Char) : List Char :=
  replaceAllLitF s.length needle repl s

/-- Worker for `pySplit`. -/
def pySplitAux (sep : Char) : List Char → List Char → List (List Char)
  | [], acc => [acc.reverse]
  | c :: t, acc =>
    if c == sep then acc.reverse :: pySplitAux sep t [] else pySplitAux sep t (c :: acc)

/-- Python `str.split(sep)` for a one-character separator. -/
def pySplit (sep : Char) (s : List Char) : List (List Char) := pySplitAux sep s []

/-- Python `str.strip(set)`: remove leading and trailing characters in `p`. -/
def stripPy (p : Char → Bool) (s : List Char) : List Char :=
  ((s.dropWhile p).reverse.dropWhile p).reverse

/-- One atom of a regex pattern; the source's patterns are concatenations of
these.  `starG`/`plusG` are greedy `*`/`+` over a character class, `starL` is
lazy `*?`, `optC` a greedy optional character, `openG`/`closeG` delimit a
capture group. -/
inductive Atom where
  | lit (cs : List Char)
  | one (p : Char → Bool)
  | starG (p : Char → Bool)
  | plusG (p : Char → Bool)
  | starL (p : Char → Bool)
  | optC (p : Char → Bool)
  | openG (n : Nat)
  | closeG (n : Nat)

/-- Captured groups: group number paired with captured text. -/
abbrev Caps := List (Nat × List Char)

/-- Backtracking matcher for a concatenation of atoms against the prefix of
`s`, with Python's greedy/lazy preference order.  `op` records, for each open
group, the residual input at its opening point; on `closeG` the captured text
is the part consumed since then.  Returns the residual input after the match
together with the captures. -/
def matchSeqF : Nat → List Atom → List Char → Caps → Caps → Option (List Char × Caps)
  | _, [], s, _, caps => some (s, caps)
  | 0, _ :: _, _, _, _ => none
  | fuel + 1, Atom.lit cs :: ps, s, op, caps =>
    if cs.isPrefixOf s then matchSeqF fuel ps (s.drop cs.length) op caps else none
  | fuel + 1, Atom.one p :: ps, s, op, caps =>
    match s with
    | [] => none
    | c :: r => if p c then matchSeqF fuel ps r op caps else none
  | fuel + 1, Atom.optC p :: ps, s, op, caps =>
    match s with
    | [] => matchSeqF fuel ps [] op caps
    | c :: r =>
      if p c then
        (matchSeqF fuel ps r op caps).orElse (fun _ => matchSeqF fuel ps (c :: r) op caps)
      else matchSeqF fuel ps (c :: r) op caps
  | fuel + 1, Atom.starG p :: ps, s, op, caps =>
    match s with
    | [] => matchSeqF fuel ps [] op caps
    | c :: r =>
      if p c then
        (matchSeqF fuel (Atom.starG p :: ps) r op caps).orElse
          (fun _ => matchSeqF fuel ps (c :: r) op caps)
      else matchSeqF fuel ps (c :: r) op caps
  | fuel + 1, Atom.plusG p :: ps, s, op, caps =>
    match s with
    | [] => none
    | c :: r => if p c then matchSeqF fuel (Atom.starG p :: ps) r op caps else none
  | fuel + 1, Atom.starL p :: ps, s, op, caps =>
    match s with
    | [] => matchSeqF fuel ps [] op caps
    | c :: r =>
      (matchSeqF fuel ps (c :: r) op caps).orElse
        (fun _ => if p c then matchSeqF fuel (Atom.starL p :: ps) r op caps else none)
  | fuel + 1, Atom.openG n :: ps, s, op, caps => matchSeqF fuel ps s ((n, s) :: op) caps
  | fuel + 1, Atom.closeG n :: ps, s, op, caps =>
    let o := (op.lookup n).getD []
    matchSeqF fuel ps s op ((n, o.take (o.length - s.length)) :: caps)

/-- The matcher at its canonical fuel.  Every recursive call of `matchSeqF`
decreases `ps.length + s.length`, so this fuel is never exhausted
(`matchSeqF_stable` below makes this precise). -/
def matchSeq (ps : List Atom) (s : List Char) (op caps : Caps) :
    Option (List Char × Caps) :=
  matchSeqF (ps.length + s.length + 1) ps s op caps

/-- The text captured by group `n` (empty if absent). -/
def getCap (n : Nat) (caps : Caps) : List Char := (caps.lookup n).getD []

/-- A replacement: builds the substituted text from the captures. -/
abbrev Repl := Caps → List Char

/-- Python `re.sub`: scan left to right, replace each leftmost non-overlapping
match and continue after it.  (The source's patterns can never match the empty
string — they all start with a literal — so the zero-width branches are
defensive only.) -/
def reSubF : Nat → List Atom → Repl → List Char → List Char
  | _, pat, repl, [] =>
    match matchSeq pat [] [] [] with
    | some (_, caps) => repl caps
    | none => []
  | 0, _, _, _ :: _ => []
  | fuel + 1, pat, repl, c :: t =>
    match matchSeq pat (c :: t) [] [] with
    | some (rest, caps) =>
      if rest.length < (c :: t).length then repl caps ++ reSubF fuel pat repl rest
      else c :: reSubF fuel pat repl t
    | none => c :: reSubF fuel pat repl t

/-- Python `re.sub` at its canonical fuel (a match-and-replace step advances
in the input, so the input length bounds the number of steps). -/
def reSub (pat : List Atom) (repl : Repl) (s : List Char) : List Char :=
  reSubF s.length pat repl s

/-- Python `re.search`: the text of the leftmost match, if any. -/
def findFirstF : Nat → List Atom → List Char → Option (List Char)
  | 0, pat, s =>
    match matchSeq pat s [] [] with
    | some (rest, _) => some (s.take (s.length - rest.length))
    | none => none
  | fuel + 1, pat, s =>
    match matchSeq pat s [] [] with
    | some (rest, _) => some (s.take (s.length - rest.length))
    | none =>
      match s with
      | [] => none
      | _ :: t => findFirstF fuel pat t

/-- Python `re.search` at its canonical fuel. -/
def findFirst (pat : List Atom) (s : List Char) : Option (List Char) :=
  findFirstF s.length pat s

/-- Python `re.findall` for a groupless pattern: the texts of all
non-overlapping matches, left to right. -/
def findAllPatF : Nat → List Atom → List Char → List (List Char)
  | _, _, [] => []
  | 0, _, _ :: _ => []
  | fuel + 1, pat, c :: t =>
    match matchSeq pat (c :: t) [] [] with
    | some (rest, _) =>
      if rest.length < (c :: t).length then
        (c :: t).take ((c :: t).length - rest.length) :: findAllPatF fuel pat rest
      else [] :: findAllPatF fuel pat t
    | none => findAllPatF fuel pat t

/-- Python `re.findall` at its canonical fuel. -/
def findAllPat (pat : List Atom) (s : List Char) : List (List Char) :=
  findAllPatF s.length pat s

/-! ### MD5 (`hashlib.md5(...).hexdigest()`) -/

/-- Truncation to 32 bits. -/
def u32 (n : Nat) : Nat := n % 4294967296

/-- 32-bit left rotation. -/
def rotl (x n : Nat) : Nat := u32 ((x <<< n) ||| (x >>> (32 - n)))

/-- 32-bit bitwise complement (arguments kept below `2^32`). -/
def bnot32 (x : Nat) : Nat := 4294967295 - x

/-- The MD5 sine-derived constant table. -/
def md5K : List Nat :=
  [0xd76aa478, 0xe8c7b756, 0x242070db, 0xc1bdceee,
   0xf57c0faf, 0x4787c62a, 0xa8304613, 0xfd469501,
   0x698098d8, 0x8b44f7af, 0xffff5bb1, 0x895cd7be,
   0x6b901122, 0xfd987193, 0xa679438e, 0x49b40821,
   0xf61e2562, 0xc040b340, 0x265e5a51, 0xe9b6c7aa,
   0xd62f105d, 0x02441453, 0xd8a1e681, 0xe7d3fbc8,
   0x21e1cde6, 0xc33707d6, 0xf4d50d87, 0x455a14ed,
   0xa9e3e905, 0xfcefa3f8, 0x676f02d9, 0x8d2a4c8a,
   0xfffa3942, 0x8771f681, 0x6d9d6122, 0xfde5380c,
   0xa4beea44, 0x4bdecfa9, 0xf6bb4b60, 0xbebfbc70,
   0x289b7ec6, 0xeaa127fa, 0xd4ef3085, 0x04881d05,
   0xd9d4d039, 0xe6db99e5, 0x1fa27cf8, 0xc4ac5665,
   0xf4292244, 0x432aff97, 0xab9423a7, 0xfc93a039,
   0x655b59c3, 0x8f0ccc92, 0xffeff47d, 0x85845dd1,
   0x6fa87e4f, 0xfe2ce6e0, 0xa3014314, 0x4e0811a1,
   0xf7537e82, 0xbd3af235, 0x2ad7d2bb, 0xeb86d391]

/-- The MD5 per-round shift amounts. -/
def md5S : List Nat :=
  [7, 12, 17, 22, 7, 12, 17, 22, 7, 12, 17, 22, 7, 12, 17, 22,
   5, 9, 14, 20, 5, 9, 14, 20, 5, 9, 14, 20, 5, 9, 14, 20,
   4, 11, 16, 23, 4, 11, 16, 23, 4, 11, 16, 23, 4, 11, 16, 23,
   6, 10, 15, 21, 6, 10, 15, 21, 6, 10, 15, 21, 6, 10, 15, 21]

/-- UTF-8 encoding of one character (what `str.encode()` produces). -/
def utf8Bytes (c : Char) : List Nat :=
  let n := c.toNat
  if n < 0x80 then [n]
  else if n < 0x800 then [0xc0 ||| (n >>> 6), 0x80 ||| (n &&& 0x3f)]
  else if n < 0x10000 then
    [0xe0 ||| (n >>> 12), 0x80 ||| ((n >>> 6) &&& 0x3f), 0x80 ||| (n &&& 0x3f)]
  else
    [0xf0 ||| (n >>> 18), 0x80 ||| ((n >>> 12) &&& 0x3f),
     0x80 ||| ((n >>> 6) &&& 0x3f), 0x80 ||| (n &&& 0x3f)]

/-- UTF-8 bytes of a text (`str.encode()`). -/
def strBytes (s : List Char) : List Nat := (s.map utf8Bytes).flatten

/-- `n` as 8 little-endian bytes. -/
def le8 (n : Nat) : List Nat := (List.range 8).map fun i => (n >>> (8 * i)) &&& 255

/-- `n` as 4 little-endian bytes. -/
def le4 (n : Nat) : List Nat :=
  [n &&& 255, (n >>> 8) &&& 255, (n >>> 16) &&& 255, (n >>> 24) &&& 255]

/-- MD5 padding: `0x80`, zeros to 56 mod 64, then the bit length. -/
def md5Pad (msg : List Nat) : List Nat :=
  msg ++ [0x80] ++ List.replicate ((119 - (msg.length % 64)) % 64) 0 ++
    le8 (8 * msg.length)

/-- Split into 64-byte blocks (fuel as in `splitAuxF`). -/
def chunks64F : Nat → List Nat → List (List Nat)
  | _, [] => []
  | 0, _ :: _ => []
  | fuel + 1, a :: r => (a :: r).take 64 :: chunks64F fuel ((a :: r).drop 64)

/-- Split into 64-byte blocks. -/
def chunks64 (l : List Nat) : List (List Nat) := chunks64F l.length l

/-- 32-bit word `g` of a block, little endian. -/
def le32At (chunk : List Nat) (g : Nat) : Nat :=
  chunk.getD (4 * g) 0 + 256 * chunk.getD (4 * g + 1) 0 +
    65536 * chunk.getD (4 * g + 2) 0 + 16777216 * chunk.getD (4 * g + 3) 0

/-- The MD5 round mixing function for round `i`. -/
def md5F (i b c d : Nat) : Nat :=
  if i < 16 then (b &&& c) ||| (bnot32 b &&& d)
  else if i < 32 then (d &&& b) ||| (bnot32 d &&& c)
  else if i < 48 then b ^^^ c ^^^ d
  else c ^^^ (b ||| bnot32 d)

/-- The MD5 message-word schedule for round `i`. -/
def md5G (i : Nat) : Nat :=
  if i < 16 then i
  else if i < 32 then (5 * i + 1) % 16
  else if i < 48 then (3 * i + 5) % 16
  else (7 * i) % 16

/-- One MD5 round on state `(a, b, c, d)`. -/
def md5Round (chunk : List Nat) (st : Nat × Nat × Nat × Nat) (i : Nat) :
    Nat × Nat × Nat × Nat :=
  let f := u32 (md5F i st.2.1 st.2.2.1 st.2.2.2 + st.1 + md5K.getD i 0 +
    le32At chunk (md5G i))
  (st.2.2.2, u32 (st.2.1 + rotl f (md5S.getD i 0)), st.2.1, st.2.2.1)

/-- Process one 64-byte block. -/
def md5Chunk (st : Nat × Nat × Nat × Nat) (chunk : List Nat) :
    Nat × Nat × Nat × Nat :=
  let r := (List.range 64).foldl (md5Round chunk) st
  (u32 (st.1 + r.1), u32 (st.2.1 + r.2.1), u32 (st.2.2.1 + r.2.2.1),
   u32 (st.2.2.2 + r.2.2.2))

/-- The 16 MD5 digest bytes of a byte string. -/
def md5Bytes (msg : List Nat) : List Nat :=
  let st := (chunks64 (md5Pad msg)).foldl md5Chunk
    (0x67452301, 0xefcdab89, 0x98badcfe, 0x10325476)
  le4 st.1 ++ le4 st.2.1 ++ le4 st.2.2.1 ++ le4 st.2.2.2

/-- Lowercase hex digit. -/
def hexDigit (n : Nat) : Char := (chars "0123456789abcdef").getD n '0'

/-- The lowercase hex digest (`hexdigest()`) of a byte string. -/
def md5hex (msg : List Nat) : List Char :=
  ((md5Bytes msg).map fun b => [hexDigit (b / 16), hexDigit (b % 16)]).flatten

/-! ### `converter.py`: `UIHashVerifier` -/

/-- The verifier's tag pattern `<.*?>` compiled with `re.DOTALL`: from a `<`
lazily to the first following `>`. -/
def tagPat : List Atom := [Atom.lit (chars "<"), Atom.starL anyCh, Atom.lit (chars ">")]

/-- `jsx_pattern.findall(content)` in `UIHashVerifier.get_component_hash`. -/
def jsx_elements (content : List Char) : List (List Char) := findAllPat tagPat content

/-- `UIHashVerifier.get_component_hash`: the MD5 hex digest of the
concatenation of all extracted tag tokens. -/
def get_component_hash (content : List Char) : List Char :=
  md5hex (strBytes (jsx_elements content).flatten)

/-- Model of Python `difflib.unified_diff(a, b, lineterm='')` at the
granularity the source observes: `difflib` yields nothing at all when the two
line sequences are equal (the lone `equal` opcode produces no group) and
otherwise emits the two header lines followed by hunk lines drawn from the two
inputs; the hunk detail is abbreviated here to a full removal/addition, which
is faithful for everything the source does with the diff (attach it and test
emptiness). -/
def unifiedDiff (a b : List (List Char)) : List (List Char) :=
  if a = b then []
  else chars "--- " :: chars "+++ " :: (a.map (fun l => '-' :: l) ++ b.map (fun l => '+' :: l))

/-- `UIHashVerifier.verify_components`: compare fingerprints; on mismatch
attach the line-level diff of the two full texts. -/
def verify_components (original converted : List Char) : Bool × List (List Char) :=
  if get_component_hash original = get_component_hash converted then (true, [])
  else (false, unifiedDiff (splitlinesPy original) (splitlinesPy converted))

/-! ### `converter.py`: `NextToReactConverter` -/

/-- `re.search` pattern `width=['"]\d+['"]`. -/
def widthPat : List Atom :=
  [Atom.lit (chars "width="), Atom.one isQuotePy, Atom.plusG isDigitPy, Atom.one isQuotePy]

/-- `re.search` pattern `height=['"]\d+['"]`. -/
def heightPat : List Atom :=
  [Atom.lit (chars "height="), Atom.one isQuotePy, Atom.plusG isDigitPy, Atom.one isQuotePy]

/-- `NextToReactConverter._convert_image_tag`: search `prefix + suffix` for
quoted numeric `width`/`height`, keep their values with the quotes stripped,
and emit an `img` tag carrying only `src`, those two size attributes and
`loading="lazy"`. -/
def convert_image_tag (pre src suf : List Char) : List Char :=
  let attrs := pre ++ suf
  let wProp : List (List Char) :=
    match findFirst widthPat attrs with
    | some m => [chars "width=" ++ stripPy isQuotePy ((pySplit '=' m).getD 1 [])]
    | none => []
  let hProp : List (List Char) :=
    match findFirst heightPat attrs with
    | some m => [chars "height=" ++ stripPy isQuotePy ((pySplit '=' m).getD 1 [])]
    | none => []
  chars "<img src=" ++ src ++ chars " " ++ List.intercalate (chars " ") (wProp ++ hProp) ++
    chars " loading=\"lazy\" />"

/-- The pattern `import\s+{\s*useRouter\s*}\s+from\s+['"]next/router['"]`. -/
def useRouterImportPat : List Atom :=
  [Atom.lit (chars "import"), Atom.plusG isSpacePy, Atom.lit (chars "\x7b"),
   Atom.starG isSpacePy, Atom.lit (chars "useRouter"), Atom.starG isSpacePy,
   Atom.lit (chars "\x7d"), Atom.plusG isSpacePy, Atom.lit (chars "from"),
   Atom.plusG isSpacePy, Atom.one isQuotePy, Atom.lit (chars "next/router"),
   Atom.one isQuotePy]

/-- The pattern `<Image\s+([^>]*?)src=(['"].*?['"])\s*([^>]*?)/?>` shared by
`converter.py` and both GUI converters. -/
def imagePat : List Atom :=
  [Atom.lit (chars "<Image"), Atom.plusG isSpacePy,
   Atom.openG 1, Atom.starL (fun c => c != '>'), Atom.closeG 1,
   Atom.lit (chars "src="),
   Atom.openG 2, Atom.one isQuotePy, Atom.starL notNL, Atom.one isQuotePy, Atom.closeG 2,
   Atom.starG isSpacePy,
   Atom.openG 3, Atom.starL (fun c => c != '>'), Atom.closeG 3,
   Atom.optC (fun c => c == '/'), Atom.lit (chars ">")]

/-- `NextToReactConverter._preserve_css_modules` on the success path: the code
collects the CSS-module imports, parses each sheet into a class map that sends
every class name to itself, and then re-substitutes each `var.class`
occurrence by the identical text — textually the identity (the file-system
reads it performs lie outside the text semantics; a read failure is caught by
`convert_component`). -/
def preserve_css_modules (content : List Char) : List Char := content

/-- `NextToReactConverter._transform_component`: the `useRouter` import
rewrite, the `Image` tag rewrite through `_convert_image_tag`, and the CSS
module pass when the text mentions `.module.`. -/
def transform_component (content : List Char) : List Char :=
  let c1 := reSub useRouterImportPat
    (fun _ => chars "import \x7b useNavigate, useLocation \x7d from \"react-router-dom\"")
    content
  let c2 := reSub imagePat
    (fun caps => convert_image_tag (getCap 1 caps) (getCap 2 caps) (getCap 3 caps)) c1
  if pySubstr (chars ".module.") c2 then preserve_css_modules c2 else c2

/-- The error text `f"UI mismatch in {task.file_path}:\n" + '\n'.join(diff)`. -/
def mismatchMsg (path : List Char) (diff : List (List Char)) : List Char :=
  chars "UI mismatch in " ++ path ++ chars ":\n" ++ List.intercalate (chars "\n") diff

/-- `NextToReactConverter.convert_component` for one task: the read result is
passed in (`Except.error e` models a raised and caught exception, e.g. an I/O
failure).  Returns `(success, reported error, written output)`: the converted
text is produced, verified, and written only when verification succeeded;
every exception is caught and turned into a failure of this task alone. -/
def convert_component (path : List Char) (read : Except (List Char) (List Char)) :
    Bool × Option (List Char) × Option (List Char) :=
  match read with
  | Except.error e => (false, some e, none)
  | Except.ok original =>
    let converted := transform_component original
    let v := verify_components original converted
    if v.1 then (true, none, some converted)
    else (false, some (mismatchMsg path v.2), none)

/-- `NextToReactConverter.convert_with_progress`: every scheduled task is
submitted and each future's result collected in submission order; a failed
task is reported and the loop continues. -/
def batch_results (tasks : List (List Char × Except (List Char) (List Char))) :
    List (Bool × Option (List Char) × Option (List Char)) :=
  tasks.map fun t => convert_component t.1 t.2

/-! ### `nextjs_converter.py` / `nextjs_converterV2.py`: `ProjectConverter`
(the four rewrite stages are character-identical in the two files) -/

/-- The import pattern `import\s+.*?\s+from\s+['"]MOD['"]` for module `mod`. -/
def importPat (mod : List Char) : List Atom :=
  [Atom.lit (chars "import"), Atom.plusG isSpacePy, Atom.starL notNL,
   Atom.plusG isSpacePy, Atom.lit (chars "from"), Atom.plusG isSpacePy,
   Atom.one isQuotePy, Atom.lit mod, Atom.one isQuotePy]

/-- `ProjectConverter._convert_imports`: the four module rewrites, applied in
the dictionary's insertion order. -/
def convert_imports (content : List Char) : List Char :=
  let c1 := reSub (importPat (chars "next/router"))
    (fun _ => chars "import \x7b useNavigate, useLocation, useParams \x7d from \"react-router-dom\"")
    content
  let c2 := reSub (importPat (chars "next/link"))
    (fun _ => chars "import \x7b Link \x7d from \"react-router-dom\"") c1
  let c3 := reSub (importPat (chars "next/image"))
    (fun _ => chars "import \x7b LazyLoadImage \x7d from \"react-lazy-load-image-component\"") c2
  reSub (importPat (chars "next/head"))
    (fun _ => chars "import \x7b Helmet \x7d from \"react-helmet\"") c3

/-- The pattern `<Link\s+href=(['"].*?['"])`. -/
def linkPat : List Atom :=
  [Atom.lit (chars "<Link"), Atom.plusG isSpacePy, Atom.lit (chars "href="),
   Atom.openG 1, Atom.one isQuotePy, Atom.starL notNL, Atom.one isQuotePy, Atom.closeG 1]

/-- `ProjectConverter._convert_routing`: the literal `str.replace` rewrites
followed by the `Link` attribute rename. -/
def convert_routing (content : List Char) : List Char :=
  let c1 := replaceAllLit (chars "useRouter()") (chars "useNavigate()") content
  let c2 := replaceAllLit (chars "router.push(") (chars "navigate(") c1
  let c3 := replaceAllLit (chars "router.replace(") (chars "navigate(") c2
  let c4 := replaceAllLit (chars "router.query")
    (chars "new URLSearchParams(useLocation().search)") c3
  reSub linkPat (fun caps => chars "<Link to=" ++ getCap 1 caps) c4

/-- The pattern `<Head>(.*?)</Head>` compiled with `re.DOTALL`. -/
def headPat : List Atom :=
  [Atom.lit (chars "<Head>"), Atom.openG 1, Atom.starL anyCh, Atom.closeG 1,
   Atom.lit (chars "</Head>")]

/-- `ProjectConverter._convert_components`: the `Image` to `LazyLoadImage`
rewrite `<LazyLoadImage src=\2 \1 \3 />` and the `Head` to `Helmet` rewrite. -/
def convert_components (content : List Char) : List Char :=
  let c1 := reSub imagePat
    (fun caps => chars "<LazyLoadImage src=" ++ getCap 2 caps ++ chars " " ++
      getCap 1 caps ++ chars " " ++ getCap 3 caps ++ chars " />") content
  reSub headPat (fun caps => chars "<Helmet>" ++ getCap 1 caps ++ chars "</Helmet>") c1

/-- The text of `ProjectConverter._convert_to_use_effect` before the inlined
fetch body. -/
def useEffectPre : List Char :=
  chars "\nconst [data, setData] = useState(null);\nconst [loading, setLoading] = useState(true);\n\nuseEffect(() => \x7b\n    const fetchData = async () => \x7b\n        try \x7b\n            setLoading(true);\n            "

/-- The text of `ProjectConverter._convert_to_use_effect` after the inlined
fetch body. -/
def useEffectPost : List Char :=
  chars "\n            setData(props);\n        \x7d catch (error) \x7b\n            console.error(\x27Error fetching data:\x27, error);\n        \x7d finally \x7b\n            setLoading(false);\n        \x7d\n    \x7d;\n    \n    fetchData();\n\x7d, []);\n"

/-- `ProjectConverter._convert_to_use_effect`: the generated state-and-effect
block with the captured fetch body inlined. -/
def convert_to_use_effect (fetch_content : List Char) : List Char :=
  useEffectPre ++ fetch_content ++ useEffectPost

/-- The pattern `export\s+async\s+function\s+NAME\s*\([^)]*\)\s*{([^}]*)}`. -/
def dataPat (name : List Char) : List Atom :=
  [Atom.lit (chars "export"), Atom.plusG isSpacePy, Atom.lit (chars "async"),
   Atom.plusG isSpacePy, Atom.lit (chars "function"), Atom.plusG isSpacePy,
   Atom.lit name, Atom.starG isSpacePy, Atom.lit (chars "("),
   Atom.starG (fun c => c != ')'), Atom.lit (chars ")"), Atom.starG isSpacePy,
   Atom.lit (chars "\x7b"), Atom.openG 1, Atom.starG (fun c => c != '\x7d'),
   Atom.closeG 1, Atom.lit (chars "\x7d")]

/-- `ProjectConverter._convert_data_fetching`: the `getStaticProps` rewrite
followed by the `getServerSideProps` rewrite, both through
`_convert_to_use_effect`. -/
def convert_data_fetching (content : List Char) : List Char :=
  let c1 := reSub (dataPat (chars "getStaticProps"))
    (fun caps => convert_to_use_effect (getCap 1 caps)) content
  reSub (dataPat (chars "getServerSideProps"))
    (fun caps => convert_to_use_effect (getCap 1 caps)) c1

/-- `ProjectConverter.convert_file` on successfully read text: the four
rewrite stages in order. -/
def convert_file (content : List Char) : List Char :=
  convert_data_fetching (convert_routing (convert_imports content) |> convert_components)

/-- `ConverterGUI._convert_files` for one file: whatever `convert_file`
produced is written as-is (`if converted_content := ...`), with no structural
verification; Python's truthiness makes an empty converted text skip the
write.  Returns the written text, if any. -/
def gui_written (read : Option (List Char)) : Option (List Char) :=
  match read with
  | none => none
  | some content =>
    let c := convert_file content
    if c.isEmpty then none else some c

/-! ### `nextjs_converterV2.py`: `ProjectAnalyzer` (V1's `_categorize_file`
is character-identical) -/

/-- The file categories of `ProjectAnalyzer.analyze`'s stats lists. -/
inductive Category where
  | components | pages | layouts | api_routes | styles | config_files | public_assets
deriving DecidableEq, Repr

/-- `ProjectAnalyzer.EXCLUDED_PATTERNS` of `nextjs_converterV2.py`. -/
def excludedPatterns : List (List Char) :=
  [chars "node_modules", chars ".next", chars ".git", chars "dist",
   chars "build", chars "__pycache__", chars ".env"]

/-- `ProjectAnalyzer.should_skip_path`: some path segment is excluded.  A
relative path is modelled by its list of segments (`Path.parts`). -/
def should_skip_path (parts : List (List Char)) : Bool :=
  excludedPatterns.any fun e => parts.contains e

/-- `str(rel_path)` with `/` as separator. -/
def pathStr (parts : List (List Char)) : List Char :=
  List.intercalate (chars "/") parts

/-- `rel_path.name`: the final path segment. -/
def pathName (parts : List (List Char)) : List Char := (parts.getLast?).getD []

/-- `rel_path.suffix` of `pathlib`: from the last dot of the name, unless that
dot is the first or last character. -/
def pySuffix (name : List Char) : List Char :=
  let j := name.reverse.indexOf '.'
  if j < name.length then
    let i := name.length - 1 - j
    if 0 < i ∧ i < name.length - 1 then name.drop i else []
  else []

/-- The configuration file-name set of `_categorize_file`. -/
def configNames : List (List Char) :=
  [chars "next.config.js", chars "package.json", chars "tsconfig.json",
   chars "next-env.d.ts", chars "next-sitemap.config.js"]

/-- The style-sheet extension set of `_categorize_file`. -/
def styleSuffixes : List (List Char) :=
  [chars ".css", chars ".scss", chars ".sass", chars ".less"]

/-- The script extension set of `_categorize_file`. -/
def jsSuffixes : List (List Char) :=
  [chars ".js", chars ".jsx", chars ".tsx", chars ".ts"]

/-- `ProjectAnalyzer._categorize_file` (identical in both GUI converters).
`content` is the result of reading the file: `none` models a read that raised
(the `except Exception: pass` branch), after which the code falls through to
the public-assets test. -/
def categorize_file (parts : List (List Char)) (content : Option (List Char)) :
    Option Category :=
  let fileStr := lowerPy (pathStr parts)
  let name := pathName parts
  if configNames.contains name then some Category.config_files
  else if styleSuffixes.contains (pySuffix name) then some Category.styles
  else
    let jsRes : Option Category :=
      if jsSuffixes.contains (pySuffix name) then
        match content with
        | some raw =>
          let cl := lowerPy raw
          if pySubstr (chars "api") fileStr &&
              (pySubstr (chars "req,") cl || pySubstr (chars "res,") cl ||
               pySubstr (chars "response") cl || pySubstr (chars "request") cl) then
            some Category.api_routes
          else if (pySubstr (chars "react") cl || pySubstr (chars "export default") cl ||
                pySubstr (chars "<") cl) && pySubstr (chars "components") fileStr then
            some Category.components
          else if pySubstr (chars "pages") fileStr ||
              pySubstr (chars "getstaticprops") cl ||
              pySubstr (chars "getserversideprops") cl then
            some Category.pages
          else if pySubstr (chars "layout") fileStr ||
              pySubstr (chars "children") cl || pySubstr (chars "props.children") cl then
            some Category.layouts
          else none
        | none => none
      else none
    match jsRes with
    | some cat => some cat
    | none =>
      if pySubstr (chars "public") fileStr || pySubstr (chars "assets") fileStr then
        some Category.public_assets
      else none

/-- The category lists of the stats dictionary built by
`ProjectAnalyzer.analyze`. -/
structure AnalyzeStats where
  components : List (List Char)
  pages : List (List Char)
  layouts : List (List Char)
  api_routes : List (List Char)
  styles : List (List Char)
  config_files : List (List Char)
  public_assets : List (List Char)
deriving DecidableEq, Repr

/-- The empty stats dictionary. -/
def emptyStats : AnalyzeStats := ⟨[], [], [], [], [], [], []⟩

/-- `stats[file_category].append(str(rel_path))`. -/
def addToStats (st : AnalyzeStats) (cat : Category) (p : List Char) : AnalyzeStats :=
  match cat with
  | Category.components => { st with components := st.components ++ [p] }
  | Category.pages => { st with pages := st.pages ++ [p] }
  | Category.layouts => { st with layouts := st.layouts ++ [p] }
  | Category.api_routes => { st with api_routes := st.api_routes ++ [p] }
  | Category.styles => { st with styles := st.styles ++ [p] }
  | Category.config_files => { st with config_files := st.config_files ++ [p] }
  | Category.public_assets => { st with public_assets := st.public_assets ++ [p] }

/-- The file loop of `ProjectAnalyzer.analyze` in `nextjs_converterV2.py`
(lines 197-207): every regular file found by `rglob` is categorized and, when
categorized, appended to its category list.  The loop never consults
`should_skip_path`. -/
def analyzeFiles (files : List (List (List Char) × Option (List Char))) : AnalyzeStats :=
  files.foldl
    (fun st f =>
      match categorize_file f.1 f.2 with
      | some cat => addToStats st cat (pathStr f.1)
      | none => st)
    emptyStats

/-! ### Derived definitions used by the verification statements -/

/-- The number of non-line-break characters of a text: exactly the total
length of its `splitlines`. -/
def nbCount (s : List Char) : Nat := (s.filter fun c => !isLineBreakPy c).length

/-- A tag token as extracted by the verifier: from a `<` to the first
following `>`. -/
def IsTagToken (t : List Char) : Prop :=
  ∃ mid, t = '<' :: (mid ++ ['>']) ∧ '>' ∉ mid

/-- A canonical data-fetching export: the text
`export async function NM(PS) \x7bBODY\x7d`. -/
def fnDecl (nm ps body : List Char) : List Char :=
  chars "export async function " ++
    (nm ++ ('(' :: (ps ++ (')' :: ' ' :: '\x7b' :: (body ++ ['\x7d'])))))

/-- `useEffectPre` without its final space (used to split at a junction). -/
def useEffectPre0 : List Char :=
  chars "\nconst [data, setData] = useState(null);\nconst [loading, setLoading] = useState(true);\n\nuseEffect(() => \x7b\n    const fetchData = async () => \x7b\n        try \x7b\n            setLoading(true);\n           "

/-- `useEffectPost` without its leading newline (used to split at a junction). -/
def useEffectPost0 : List Char :=
  chars "            setData(props);\n        \x7d catch (error) \x7b\n            console.error(\x27Error fetching data:\x27, error);\n        \x7d finally \x7b\n            setLoading(false);\n        \x7d\n    \x7d;\n    \n    fetchData();\n\x7d, []);\n"

/-- The canonical captured attribute text of an optimized-image tag carrying
quoted numeric width and height: `width="DS" height="HS" `. -/
def sizeAttrs (ds hs : List Char) : List Char :=
  chars "width=\x22" ++ (ds ++ ('\x22' :: ' ' :: (chars "height=\x22" ++ (hs ++ ('\x22' :: [' '])))))

/-- The path-only classification of an unreadable file, as the amended claim
C6 states it: the config and style rules, then directly the public-assets
path rule, never the pages/layout rules. -/
def categorize_unreadable_spec (parts : List (List Char))  : Option Category :=
  if configNames.contains (pathName parts) then some Category.config_files
  else if styleSuffixes.contains (pySuffix (pathName parts)) then some Category.styles
  else if pySubstr (chars "public") (lowerPy (pathStr parts)) ||
      pySubstr (chars "assets") (lowerPy (pathStr parts)) then
    some Category.public_assets
  else none

/-! ### Substring occurrence kit -/

theorem prefOf_iff (a s : List Char) : a.isPrefixOf s = true ↔ ∃ t, s = a ++ t := by
  induction a generalizing s with
  | nil => simp [List.isPrefixOf]
  | cons c a ih =>
    cases s with
    | nil => simp [List.isPrefixOf]
    | cons d t =>
      simp only [List.isPrefixOf, Bool.and_eq_true, beq_iff_eq, ih]
      constructor
      · rintro ⟨rfl, u, rfl⟩
        exact ⟨u, rfl⟩
      · rintro ⟨u, hu⟩
        rw [List.cons_append, List.cons.injEq] at hu
        exact ⟨hu.1.symm, u, hu.2⟩

theorem occurs_ext_left {cs t : List Char} (h : Occurs cs t) (u : List Char) :
    Occurs cs (u ++ t) := by
  obtain ⟨a, b, rfl⟩ := h
  exact ⟨u ++ a, b, by simp⟩

theorem occurs_cons_intro {cs t : List Char} (c : Char) (h : Occurs cs t) :
    Occurs cs (c :: t) := occurs_ext_left h [c]

theorem occurs_drop {cs s : List Char} {k : Nat} (h : Occurs cs (s.drop k)) :
    Occurs cs s := by
  have := occurs_ext_left h (s.take k)
  rwa [List.take_append_drop] at this

theorem occurs_nil {cs : List Char} (hne : cs ≠ []) : ¬ Occurs cs [] := by
  rintro ⟨a, b, h⟩
  simp only [List.nil_eq, List.append_eq_nil] at h
  exact hne h.1.2

theorem pySubstr_iff (cs s : List Char) : pySubstr cs s = true ↔ Occurs cs s := by
  induction s with
  | nil =>
    simp only [pySubstr, List.isEmpty_iff, Occurs]
    constructor
    · rintro rfl; exact ⟨[], [], rfl⟩
    · rintro ⟨a, b, h⟩
      simp only [List.nil_eq, List.append_eq_nil] at h
      exact h.1.2
  | cons c t ih =>
    simp only [pySubstr, Bool.or_eq_true, prefOf_iff, ih]
    constructor
    · rintro (⟨u, hu⟩ | h)
      · exact ⟨[], u, by simp [hu]⟩
      · exact occurs_cons_intro c h
    · rintro ⟨a, b, hab⟩
      cases a with
      | nil => exact Or.inl ⟨b, by simpa using hab⟩
      | cons x a' =>
        right
        rw [List.cons_append, List.cons_append, List.cons.injEq] at hab
        exact ⟨a', b, hab.2⟩

theorem occurs_append_split {cs X Y : List Char} (h : Occurs cs (X ++ Y)) :
    Occurs cs X ∨ Occurs cs Y ∨
      ∃ c1 c2, cs = c1 ++ c2 ∧ c1 ≠ [] ∧ c2 ≠ [] ∧
        (∃ a0, X = a0 ++ c1) ∧ (∃ b0, Y = c2 ++ b0) := by
  obtain ⟨a, b, hab⟩ := h
  rw [List.append_assoc] at hab
  rcases List.append_eq_append_iff.mp hab.symm with ⟨k, hk1, hk2⟩ | ⟨k, hk1, hk2⟩
  · rcases List.append_eq_append_iff.mp hk2 with ⟨m, hm1, hm2⟩ | ⟨m, hm1, hm2⟩
    · exact Or.inl ⟨a, m, by rw [hk1, hm1, List.append_assoc]⟩
    · cases m with
      | nil =>
        rw [List.append_nil] at hm1
        subst hm1
        exact Or.inl ⟨a, [], by rw [List.append_nil, hk1]⟩
      | cons mc mt =>
        cases k with
        | nil =>
          have hcs : cs = mc :: mt := by simpa using hm1
          exact Or.inr (Or.inl ⟨[], b, by rw [hm2, hcs]; rfl⟩)
        | cons kc kt =>
          exact Or.inr (Or.inr ⟨kc :: kt, mc :: mt, hm1, by simp, by simp,
            ⟨a, hk1⟩, ⟨b, hm2⟩⟩)
  · exact Or.inr (Or.inl ⟨k, b, by rw [hk2, List.append_assoc]⟩)

theorem occurs_cons_elim {cs Z : List Char} {c : Char} (hc : c ∉ cs)
    (h : Occurs cs (c :: Z)) : Occurs cs Z := by
  obtain ⟨a, b, hab⟩ := h
  cases a with
  | nil =>
    cases cs with
    | nil => exact ⟨[], Z, by simp⟩
    | cons x xs =>
      simp only [List.nil_append, List.cons_append, List.cons.injEq] at hab
      exact absurd (hab.1 ▸ List.mem_cons_self x xs) hc
  | cons y a' =>
    rw [List.cons_append, List.cons_append, List.cons.injEq] at hab
    exact ⟨a', b, hab.2⟩

theorem occurs_break {cs X Y : List Char} {q : Char} (hq : q ∉ cs)
    (h : Occurs cs (X ++ q :: Y)) : Occurs cs X ∨ Occurs cs Y := by
  rcases occurs_append_split h with h1 | h2 | ⟨c1, c2, hcs, hc1, hc2, _, ⟨b0, hb0⟩⟩
  · exact Or.inl h1
  · exact Or.inr (occurs_cons_elim hq h2)
  · exfalso
    cases c2 with
    | nil => exact hc2 rfl
    | cons x xs =>
      rw [List.cons_append, List.cons.injEq] at hb0
      exact hq (hcs ▸ List.mem_append_right c1 (hb0.1 ▸ List.mem_cons_self x xs))

/-! ### Line counting for `splitlinesPy` -/

theorem nbCount_cons (c : Char) (t : List Char) :
    nbCount (c :: t) = (if isLineBreakPy c then 0 else 1) + nbCount t := by
  simp only [nbCount, List.filter_cons]
  split <;> simp_all <;> omega

theorem nbCount_append (a b : List Char) :
    nbCount (a ++ b) = nbCount a + nbCount b := by
  simp [nbCount, List.filter_append]

theorem splitAuxF_sum :
    ∀ (fuel : Nat) (s acc : List Char), s.length ≤ fuel →
      ((splitAuxF fuel s acc).map List.length).sum = acc.length + nbCount s := by
  intro fuel
  induction fuel with
  | zero =>
    intro s acc h
    cases s with
    | nil => cases acc <;> simp [splitAuxF, nbCount]
    | cons c r => simp only [List.length_cons] at h; omega
  | succ k ih =>
    intro s acc h
    cases s with
    | nil => cases acc <;> simp [splitAuxF, nbCount]
    | cons c r =>
      simp only [List.length_cons] at h
      by_cases hbr : isLineBreakPy c = true
      · rw [show splitAuxF (k + 1) (c :: r) acc =
            acc.reverse ::
              splitAuxF k (if c == '\r' && r.head? == some '\n' then r.tail else r) []
            from by simp [splitAuxF, hbr]]
        have hXr : (if c == '\r' && r.head? == some '\n' then r.tail else r).length ≤ k := by
          split
          · cases r with
            | nil => simp
            | cons d t =>
              simp only [List.tail_cons]
              simp only [List.length_cons] at h
              omega
          · omega
        rw [List.map_cons, List.sum_cons, List.length_reverse, ih _ [] hXr,
          nbCount_cons, if_pos hbr]
        simp only [List.length_nil, Nat.zero_add]
        congr 1
        split
        next hcond =>
          simp only [Bool.and_eq_true, beq_iff_eq] at hcond
          obtain ⟨rfl, hh⟩ := hcond
          cases r with
          | nil => simp at hh
          | cons d t =>
            simp only [List.head?_cons, Option.some.injEq] at hh
            subst hh
            rw [List.tail_cons, nbCount_cons]
            simp [isLineBreakPy]
        next => rfl
      · rw [show splitAuxF (k + 1) (c :: r) acc = splitAuxF k r (c :: acc)
            from by simp [splitAuxF, hbr]]
        rw [ih r (c :: acc) (by omega)]
        simp only [List.length_cons, nbCount_cons, if_neg hbr]
        omega

theorem splitlines_sum (s : List Char) :
    ((splitlinesPy s).map List.length).sum = nbCount s := by
  simpa using splitAuxF_sum s.length s [] le_rfl

theorem splitlines_ne {o c : List Char} (h : nbCount o ≠ nbCount c) :
    splitlinesPy o ≠ splitlinesPy c := by
  intro he
  exact h (by rw [← splitlines_sum, ← splitlines_sum, he])

theorem unifiedDiff_ne_nil {a b : List (List Char)} (h : a ≠ b) :
    unifiedDiff a b ≠ [] := by
  simp [unifiedDiff, h]

/-! ### Matcher step lemmas -/

/-- Every recursive call of `matchSeqF` strictly decreases `ps.length +
s.length`, so any fuel above that sum computes the same (fuel-free) result. -/
theorem matchSeqF_stable :
    ∀ (n m : Nat) (ps : List Atom) (s : List Char) (op caps : Caps),
      ps.length + s.length < n → ps.length + s.length < m →
      matchSeqF n ps s op caps = matchSeqF m ps s op caps := by
  intro n
  induction n with
  | zero => intro m ps s op caps h1 h2; omega
  | succ k ih =>
    intro m ps s op caps h1 h2
    cases ps with
    | nil =>
      cases m with
      | zero => omega
      | succ j => rfl
    | cons a ps' =>
      cases m with
      | zero => omega
      | succ j =>
        simp only [List.length_cons] at h1 h2
        cases a with
        | lit cs =>
          simp only [matchSeqF]
          have hd := List.length_drop cs.length s
          rw [ih j ps' (s.drop cs.length) op caps (by omega) (by omega)]
        | one p =>
          cases s with
          | nil => rfl
          | cons c r =>
            simp only [List.length_cons] at h1 h2
            simp only [matchSeqF]
            rw [ih j ps' r op caps (by omega) (by omega)]
        | optC p =>
          cases s with
          | nil =>
            simp only [matchSeqF]
            exact ih j ps' [] op caps (by omega) (by omega)
          | cons c r =>
            simp only [List.length_cons] at h1 h2
            simp only [matchSeqF]
            rw [ih j ps' r op caps (by omega) (by omega),
              ih j ps' (c :: r) op caps (by simp only [List.length_cons]; omega)
                (by simp only [List.length_cons]; omega)]
        | starG p =>
          cases s with
          | nil =>
            simp only [matchSeqF]
            exact ih j ps' [] op caps (by omega) (by omega)
          | cons c r =>
            simp only [List.length_cons] at h1 h2
            simp only [matchSeqF]
            rw [ih j (Atom.starG p :: ps') r op caps
                (by simp only [List.length_cons]; omega)
                (by simp only [List.length_cons]; omega),
              ih j ps' (c :: r) op caps (by simp only [List.length_cons]; omega)
                (by simp only [List.length_cons]; omega)]
        | plusG p =>
          cases s with
          | nil => rfl
          | cons c r =>
            simp only [List.length_cons] at h1 h2
            simp only [matchSeqF]
            rw [ih j (Atom.starG p :: ps') r op caps
              (by simp only [List.length_cons]; omega)
              (by simp only [List.length_cons]; omega)]
        | starL p =>
          cases s with
          | nil =>
            simp only [matchSeqF]
            exact ih j ps' [] op caps (by omega) (by omega)
          | cons c r =>
            simp only [List.length_cons] at h1 h2
            simp only [matchSeqF]
            rw [ih j ps' (c :: r) op caps (by simp only [List.length_cons]; omega)
                (by simp only [List.length_cons]; omega),
              ih j (Atom.starL p :: ps') r op caps
                (by simp only [List.length_cons]; omega)
                (by simp only [List.length_cons]; omega)]
        | openG nn =>
          simp only [matchSeqF]
          exact ih j ps' s ((nn, s) :: op) caps (by omega) (by omega)
        | closeG nn =>
          simp only [matchSeqF]
          exact ih j ps' s op _ (by omega) (by omega)

/-- Any sufficient fuel computes `matchSeq`. -/
theorem matchSeq_eqF {n : Nat} {ps : List Atom} {s : List Char} {op caps : Caps}
    (h : ps.length + s.length < n) :
    matchSeqF n ps s op caps = matchSeq ps s op caps :=
  matchSeqF_stable n (ps.length + s.length + 1) ps s op caps h (by omega)

theorem matchSeq_nilA (s : List Char) (op caps : Caps) :
    matchSeq [] s op caps = some (s, caps) := rfl

theorem matchSeq_lit (cs : List Char) (ps : List Atom) (s : List Char) (op caps : Caps) :
    matchSeq (Atom.lit cs :: ps) s op caps =
      if cs.isPrefixOf s then matchSeq ps (s.drop cs.length) op caps else none := by
  conv_lhs => unfold matchSeq
  simp only [matchSeqF]
  rw [matchSeq_eqF (show ps.length + (s.drop cs.length).length <
      (Atom.lit cs :: ps).length + s.length from by
    have := List.length_drop cs.length s
    simp only [List.length_cons]
    omega)]

theorem matchSeq_one_nil (p : Char → Bool) (ps : List Atom) (op caps : Caps) :
    matchSeq (Atom.one p :: ps) [] op caps = none := rfl

theorem matchSeq_one_cons (p : Char → Bool) (ps : List Atom) (c : Char) (r : List Char)
    (op caps : Caps) :
    matchSeq (Atom.one p :: ps) (c :: r) op caps =
      if p c then matchSeq ps r op caps else none := by
  conv_lhs => unfold matchSeq
  simp only [matchSeqF]
  rw [matchSeq_eqF (show ps.length + r.length <
      (Atom.one p :: ps).length + (c :: r).length from by
    simp only [List.length_cons]; omega)]

theorem matchSeq_optC_nil (p : Char → Bool) (ps : List Atom) (op caps : Caps) :
    matchSeq (Atom.optC p :: ps) [] op caps = matchSeq ps [] op caps := by
  conv_lhs => unfold matchSeq
  simp only [matchSeqF]
  rw [matchSeq_eqF (show ps.length + ([] : List Char).length <
      (Atom.optC p :: ps).length + ([] : List Char).length from by
    simp only [List.length_cons]; omega)]

theorem matchSeq_optC_cons (p : Char → Bool) (ps : List Atom) (c : Char) (r : List Char)
    (op caps : Caps) :
    matchSeq (Atom.optC p :: ps) (c :: r) op caps =
      if p c then
        (matchSeq ps r op caps).orElse (fun _ => matchSeq ps (c :: r) op caps)
      else matchSeq ps (c :: r) op caps := by
  conv_lhs => unfold matchSeq
  simp only [matchSeqF]
  rw [matchSeq_eqF (show ps.length + r.length <
      (Atom.optC p :: ps).length + (c :: r).length from by
    simp only [List.length_cons]; omega),
    matchSeq_eqF (show ps.length + (c :: r).length <
      (Atom.optC p :: ps).length + (c :: r).length from by
    simp only [List.length_cons]; omega)]

theorem matchSeq_starG_nil (p : Char → Bool) (ps : List Atom) (op caps : Caps) :
    matchSeq (Atom.starG p :: ps) [] op caps = matchSeq ps [] op caps := by
  conv_lhs => unfold matchSeq
  simp only [matchSeqF]
  rw [matchSeq_eqF (show ps.length + ([] : List Char).length <
      (Atom.starG p :: ps).length + ([] : List Char).length from by
    simp only [List.length_cons]; omega)]

theorem matchSeqF_succ_starG_cons (fuel : Nat) (p : Char → Bool) (ps : List Atom)
    (c : Char) (r : List Char) (op caps : Caps) :
    matchSeqF (fuel + 1) (Atom.starG p :: ps) (c :: r) op caps =
      (if p c then
        (matchSeqF fuel (Atom.starG p :: ps) r op caps).orElse
          (fun _ => matchSeqF fuel ps (c :: r) op caps)
      else matchSeqF fuel ps (c :: r) op caps) := rfl

theorem matchSeq_starG_cons (p : Char → Bool) (ps : List Atom) (c : Char) (r : List Char)
    (op caps : Caps) :
    matchSeq (Atom.starG p :: ps) (c :: r) op caps =
      if p c then
        (matchSeq (Atom.starG p :: ps) r op caps).orElse
          (fun _ => matchSeq ps (c :: r) op caps)
      else matchSeq ps (c :: r) op caps := by
  conv_lhs => unfold matchSeq
  rw [matchSeqF_succ_starG_cons]
  rw [matchSeq_eqF (show (Atom.starG p :: ps).length + r.length <
      (Atom.starG p :: ps).length + (c :: r).length from by
    simp only [List.length_cons]; omega),
    matchSeq_eqF (show ps.length + (c :: r).length <
      (Atom.starG p :: ps).length + (c :: r).length from by
    simp only [List.length_cons]; omega)]

theorem matchSeq_plusG_nil (p : Char → Bool) (ps : List Atom) (op caps : Caps) :
    matchSeq (Atom.plusG p :: ps) [] op caps = none := rfl

theorem matchSeqF_succ_plusG_cons (fuel : Nat) (p : Char → Bool) (ps : List Atom)
    (c : Char) (r : List Char) (op caps : Caps) :
    matchSeqF (fuel + 1) (Atom.plusG p :: ps) (c :: r) op caps =
      (if p c then matchSeqF fuel (Atom.starG p :: ps) r op caps else none) := rfl

theorem matchSeq_plusG_cons (p : Char → Bool) (ps : List Atom) (c : Char) (r : List Char)
    (op caps : Caps) :
    matchSeq (Atom.plusG p :: ps) (c :: r) op caps =
      if p c then matchSeq (Atom.starG p :: ps) r op caps else none := by
  conv_lhs => unfold matchSeq
  rw [matchSeqF_succ_plusG_cons]
  rw [matchSeq_eqF (show (Atom.starG p :: ps).length + r.length <
      (Atom.plusG p :: ps).length + (c :: r).length from by
    simp only [List.length_cons]; omega)]

theorem matchSeq_starL_nil (p : Char → Bool) (ps : List Atom) (op caps : Caps) :
    matchSeq (Atom.starL p :: ps) [] op caps = matchSeq ps [] op caps := by
  conv_lhs => unfold matchSeq
  simp only [matchSeqF]
  rw [matchSeq_eqF (show ps.length + ([] : List Char).length <
      (Atom.starL p :: ps).length + ([] : List Char).length from by
    simp only [List.length_cons]; omega)]

theorem matchSeqF_succ_starL_cons (fuel : Nat) (p : Char → Bool) (ps : List Atom)
    (c : Char) (r : List Char) (op caps : Caps) :
    matchSeqF (fuel + 1) (Atom.starL p :: ps) (c :: r) op caps =
      (matchSeqF fuel ps (c :: r) op caps).orElse
        (fun _ => if p c then matchSeqF fuel (Atom.starL p :: ps) r op caps else none) := rfl

theorem matchSeq_starL_cons (p : Char → Bool) (ps : List Atom) (c : Char) (r : List Char)
    (op caps : Caps) :
    matchSeq (Atom.starL p :: ps) (c :: r) op caps =
      (matchSeq ps (c :: r) op caps).orElse
        (fun _ => if p c then matchSeq (Atom.starL p :: ps) r op caps else none) := by
  conv_lhs => unfold matchSeq
  rw [matchSeqF_succ_starL_cons]
  rw [matchSeq_eqF (show ps.length + (c :: r).length <
      (Atom.starL p :: ps).length + (c :: r).length from by
    simp only [List.length_cons]; omega),
    matchSeq_eqF (show (Atom.starL p :: ps).length + r.length <
      (Atom.starL p :: ps).length + (c :: r).length from by
    simp only [List.length_cons]; omega)]

theorem orElse_some_inv {α : Type} {a : Option α} {f : Unit → Option α} {b : α}
    (h : a.orElse f = some b) : a = some b ∨ f () = some b := by
  cases a with
  | none => exact Or.inr h
  | some x => exact Or.inl h

theorem lit_step (cs t : List Char) (ps : List Atom) (op caps : Caps) :
    matchSeq (Atom.lit cs :: ps) (cs ++ t) op caps = matchSeq ps t op caps := by
  have h : cs.isPrefixOf (cs ++ t) = true := (prefOf_iff cs (cs ++ t)).mpr ⟨t, rfl⟩
  rw [matchSeq_lit, if_pos h, List.drop_left]

theorem one_step {p : Char → Bool} {c : Char} (hp : p c = true)
    (ps : List Atom) (t : List Char) (op caps : Caps) :
    matchSeq (Atom.one p :: ps) (c :: t) op caps = matchSeq ps t op caps := by
  rw [matchSeq_one_cons, if_pos hp]

theorem starG_stop {p : Char → Bool} {d : Char} (hd : p d = false)
    (ps : List Atom) (t : List Char) (op caps : Caps) :
    matchSeq (Atom.starG p :: ps) (d :: t) op caps = matchSeq ps (d :: t) op caps := by
  rw [matchSeq_starG_cons, if_neg (by simp [hd])]

theorem starG_runs {p : Char → Bool} {run rest : List Char} {ps : List Atom}
    {op caps : Caps} {r : List Char × Caps}
    (hrun : ∀ c ∈ run, p c = true)
    (hstop : ∀ d t', rest = d :: t' → p d = false)
    (hsucc : matchSeq ps rest op caps = some r) :
    matchSeq (Atom.starG p :: ps) (run ++ rest) op caps = some r := by
  induction run with
  | nil =>
    cases rest with
    | nil => simpa [matchSeq_starG_nil] using hsucc
    | cons d t' =>
      rw [List.nil_append, starG_stop (hstop d t' rfl)]
      exact hsucc
  | cons c run' ih =>
    have hc : p c = true := hrun c (List.mem_cons_self c run')
    rw [List.cons_append]
    rw [matchSeq_starG_cons, if_pos hc]
    rw [ih (fun x hx => hrun x (List.mem_cons_of_mem c hx))]
    rfl

theorem plusG_runs {p : Char → Bool} {run rest : List Char} {ps : List Atom}
    {op caps : Caps} {r : List Char × Caps}
    (hne : run ≠ [])
    (hrun : ∀ c ∈ run, p c = true)
    (hstop : ∀ d t', rest = d :: t' → p d = false)
    (hsucc : matchSeq ps rest op caps = some r) :
    matchSeq (Atom.plusG p :: ps) (run ++ rest) op caps = some r := by
  cases run with
  | nil => exact absurd rfl hne
  | cons c run' =>
    have hc : p c = true := hrun c (List.mem_cons_self c run')
    rw [List.cons_append]
    rw [matchSeq_plusG_cons, if_pos hc]
    exact starG_runs (fun x hx => hrun x (List.mem_cons_of_mem c hx)) hstop hsucc

theorem plus_one_step {p : Char → Bool} {c d : Char} (hc : p c = true) (hd : p d = false)
    (ps : List Atom) (t : List Char) (op caps : Caps) :
    matchSeq (Atom.plusG p :: ps) (c :: d :: t) op caps = matchSeq ps (d :: t) op caps := by
  rw [matchSeq_plusG_cons, if_pos hc, matchSeq_starG_cons, if_neg (by simp [hd])]

theorem openG_step (n : Nat) (ps : List Atom) (s : List Char) (op caps : Caps) :
    matchSeq (Atom.openG n :: ps) s op caps = matchSeq ps s ((n, s) :: op) caps := by
  conv_lhs => unfold matchSeq
  simp only [matchSeqF]
  rw [matchSeq_eqF (show ps.length + s.length <
      (Atom.openG n :: ps).length + s.length from by
    simp only [List.length_cons]; omega)]

theorem closeG_step (n : Nat) (ps : List Atom) (s : List Char) (op caps : Caps) :
    matchSeq (Atom.closeG n :: ps) s op caps =
      matchSeq ps s op
        ((n, ((op.lookup n).getD []).take (((op.lookup n).getD []).length - s.length)) :: caps) := by
  conv_lhs => unfold matchSeq
  simp only [matchSeqF]
  rw [matchSeq_eqF (show ps.length + s.length <
      (Atom.closeG n :: ps).length + s.length from by
    simp only [List.length_cons]; omega)]

/-- A successful match of a pattern containing the literal atom `cs` exhibits
`cs` as a substring of the input. -/
theorem matchSeq_occurs {cs : List Char} :
    ∀ (n : Nat) (ps : List Atom) (s : List Char) (op caps : Caps) (r : List Char × Caps),
      ps.length + s.length ≤ n →
      matchSeq ps s op caps = some r →
      Atom.lit cs ∈ ps → Occurs cs s := by
  intro n
  induction n with
  | zero =>
    intro ps s op caps r hlen hm hmem
    cases ps with
    | nil => exact absurd hmem (List.not_mem_nil _)
    | cons a ps' => simp [List.length_cons] at hlen
  | succ n ih =>
    intro ps s op caps r hlen hm hmem
    cases ps with
    | nil => exact absurd hmem (List.not_mem_nil _)
    | cons a ps' =>
      simp only [List.length_cons] at hlen
      rcases List.mem_cons.mp hmem with heq | hmem'
      · rw [← heq] at hm
        rw [matchSeq_lit] at hm
        by_cases hp : cs.isPrefixOf s
        · obtain ⟨t, rfl⟩ := (prefOf_iff cs s).mp hp
          exact ⟨[], t, rfl⟩
        · simp [hp] at hm
      · cases a with
        | lit cs' =>
          rw [matchSeq_lit] at hm
          by_cases hp : cs'.isPrefixOf s
          · rw [if_pos hp] at hm
            refine occurs_drop (ih ps' (s.drop cs'.length) op caps r ?_ hm hmem')
            have := List.length_drop cs'.length s
            omega
          · simp [hp] at hm
        | one p =>
          cases s with
          | nil => simp [matchSeq_one_nil] at hm
          | cons c t =>
            rw [matchSeq_one_cons] at hm
            by_cases hp : p c = true
            · rw [if_pos hp] at hm
              refine occurs_cons_intro c (ih ps' t op caps r ?_ hm hmem')
              simp only [List.length_cons] at hlen
              omega
            · simp [hp] at hm
        | optC p =>
          cases s with
          | nil =>
            rw [matchSeq_optC_nil] at hm
            exact ih ps' [] op caps r (by omega) hm hmem'
          | cons c t =>
            simp only [List.length_cons] at hlen
            rw [matchSeq_optC_cons] at hm
            by_cases hp : p c = true
            · rw [if_pos hp] at hm
              rcases orElse_some_inv hm with h1 | h1
              · exact occurs_cons_intro c (ih ps' t op caps r (by omega) h1 hmem')
              · exact ih ps' (c :: t) op caps r (by simp [List.length_cons]; omega) h1 hmem'
            · rw [if_neg hp] at hm
              exact ih ps' (c :: t) op caps r (by simp [List.length_cons]; omega) hm hmem'
        | starG p =>
          cases s with
          | nil =>
            rw [matchSeq_starG_nil] at hm
            exact ih ps' [] op caps r (by omega) hm hmem'
          | cons c t =>
            simp only [List.length_cons] at hlen
            rw [matchSeq_starG_cons] at hm
            by_cases hp : p c = true
            · rw [if_pos hp] at hm
              rcases orElse_some_inv hm with h1 | h1
              · refine occurs_cons_intro c
                  (ih (Atom.starG p :: ps') t op caps r ?_ h1
                    (List.mem_cons_of_mem _ hmem'))
                simp only [List.length_cons]
                omega
              · exact ih ps' (c :: t) op caps r (by simp [List.length_cons]; omega) h1 hmem'
            · rw [if_neg hp] at hm
              exact ih ps' (c :: t) op caps r (by simp [List.length_cons]; omega) hm hmem'
        | plusG p =>
          cases s with
          | nil => simp [matchSeq_plusG_nil] at hm
          | cons c t =>
            simp only [List.length_cons] at hlen
            rw [matchSeq_plusG_cons] at hm
            by_cases hp : p c = true
            · rw [if_pos hp] at hm
              refine occurs_cons_intro c
                (ih (Atom.starG p :: ps') t op caps r ?_ hm
                  (List.mem_cons_of_mem _ hmem'))
              simp only [List.length_cons]
              omega
            · simp [hp] at hm
        | starL p =>
          cases s with
          | nil =>
            rw [matchSeq_starL_nil] at hm
            exact ih ps' [] op caps r (by omega) hm hmem'
          | cons c t =>
            simp only [List.length_cons] at hlen
            rw [matchSeq_starL_cons] at hm
            rcases orElse_some_inv hm with h1 | h1
            · exact ih ps' (c :: t) op caps r (by simp [List.length_cons]; omega) h1 hmem'
            · by_cases hp : p c = true
              · rw [if_pos hp] at h1
                refine occurs_cons_intro c
                  (ih (Atom.starL p :: ps') t op caps r ?_ h1
                    (List.mem_cons_of_mem _ hmem'))
                simp only [List.length_cons]
                omega
              · simp [hp] at h1
        | openG m =>
          rw [openG_step] at hm
          exact ih ps' s ((m, s) :: op) caps r (by omega) hm hmem'
        | closeG m =>
          rw [closeG_step] at hm
          exact ih ps' s op _ r (by omega) hm hmem'

theorem matchSeq_none_of_no_occurs {cs : List Char} {ps : List Atom} {s : List Char}
    {op caps : Caps} (hmem : Atom.lit cs ∈ ps) (hno : ¬ Occurs cs s) :
    matchSeq ps s op caps = none := by
  cases h : matchSeq ps s op caps with
  | none => rfl
  | some r =>
    exact absurd (matchSeq_occurs (ps.length + s.length) ps s op caps r le_rfl h hmem) hno

/-- Every recursive call of `reSubF` strictly decreases the input length, so
any fuel at least that length computes the same result. -/
theorem reSubF_stable :
    ∀ (n m : Nat) (pat : List Atom) (repl : Repl) (s : List Char),
      s.length ≤ n → s.length ≤ m → reSubF n pat repl s = reSubF m pat repl s := by
  intro n
  induction n with
  | zero =>
    intro m pat repl s h1 h2
    cases s with
    | nil =>
      cases m with
      | zero => rfl
      | succ j => rfl
    | cons c t => simp only [List.length_cons] at h1; omega
  | succ k ih =>
    intro m pat repl s h1 h2
    cases s with
    | nil =>
      cases m with
      | zero => rfl
      | succ j => rfl
    | cons c t =>
      cases m with
      | zero => simp only [List.length_cons] at h2; omega
      | succ j =>
        simp only [List.length_cons] at h1 h2
        simp only [reSubF]
        cases hm : matchSeq pat (c :: t) [] [] with
        | none => rw [ih j pat repl t (by omega) (by omega)]
        | some rc =>
          obtain ⟨rest, caps⟩ := rc
          dsimp only
          by_cases hlt : rest.length < (c :: t).length
          · rw [if_pos hlt, if_pos hlt,
              ih j pat repl rest (by simp only [List.length_cons] at hlt; omega)
                (by simp only [List.length_cons] at hlt; omega)]
          · rw [if_neg hlt, if_neg hlt, ih j pat repl t (by omega) (by omega)]

theorem reSub_nil (pat : List Atom) (repl : Repl) :
    reSub pat repl [] =
      match matchSeq pat [] [] [] with
      | some (_, caps) => repl caps
      | none => [] := rfl

theorem reSub_cons (pat : List Atom) (repl : Repl) (c : Char) (t : List Char) :
    reSub pat repl (c :: t) =
      match matchSeq pat (c :: t) [] [] with
      | some (rest, caps) =>
        if rest.length < (c :: t).length then repl caps ++ reSub pat repl rest
        else c :: reSub pat repl t
      | none => c :: reSub pat repl t := by
  conv_lhs => unfold reSub
  simp only [List.length_cons, reSubF]
  cases hm : matchSeq pat (c :: t) [] [] with
  | none => rfl
  | some rc =>
    obtain ⟨rest, caps⟩ := rc
    dsimp only
    by_cases hlt : rest.length < t.length + 1
    · rw [if_pos hlt, if_pos hlt]
      unfold reSub
      rw [reSubF_stable t.length rest.length pat repl rest (by omega) le_rfl]
    · rw [if_neg hlt, if_neg hlt]
      rfl

/-- `re.sub` leaves a text unchanged when a literal of the pattern does not
occur in it. -/
theorem reSub_id_of_no_occurs {cs : List Char} {pat : List Atom}
    (hmem : Atom.lit cs ∈ pat) (repl : Repl) :
    ∀ {s : List Char}, ¬ Occurs cs s → reSub pat repl s = s := by
  intro s
  induction s with
  | nil =>
    intro hno
    simp [reSub_nil, matchSeq_none_of_no_occurs hmem hno]
  | cons c t ih =>
    intro hno
    have h1 : matchSeq pat (c :: t) [] [] = none := matchSeq_none_of_no_occurs hmem hno
    rw [reSub_cons, h1]
    rw [ih fun o => hno (occurs_cons_intro c o)]

/-- `re.sub` when the pattern matches the entire text: one replacement. -/
theorem reSub_whole {pat : List Atom} {s : List Char} {caps : Caps}
    (hnil : matchSeq pat [] [] [] = none)
    (hm : matchSeq pat s [] [] = some ([], caps)) (hne : s ≠ []) (repl : Repl) :
    reSub pat repl s = repl caps := by
  cases s with
  | nil => exact absurd rfl hne
  | cons c t =>
    rw [reSub_cons, hm]
    simp only [List.length_nil, List.length_cons]
    rw [if_pos (Nat.succ_pos _)]
    simp [reSub_nil, hnil]

/-! ### The canonical data-fetching declaration and its conversion -/

theorem fnDecl_ne_nil (nm ps body : List Char) : fnDecl nm ps body ≠ [] := by
  intro h
  have h2 := congrArg List.length h
  simp only [fnDecl, List.length_append, List.length_nil] at h2
  have h3 : (chars "export async function ").length = 22 := rfl
  omega

theorem dataPat_nil (nm : List Char) : matchSeq (dataPat nm) [] [] [] = none := rfl

theorem lit_name_mem (nm : List Char) : Atom.lit nm ∈ dataPat nm := by
  unfold dataPat
  exact List.mem_cons_of_mem _ (List.mem_cons_of_mem _ (List.mem_cons_of_mem _
    (List.mem_cons_of_mem _ (List.mem_cons_of_mem _ (List.mem_cons_of_mem _
      (List.mem_cons_self _ _))))))

theorem mod_lit_mem (mod : List Char) : Atom.lit mod ∈ importPat mod := by
  unfold importPat
  exact List.mem_cons_of_mem _ (List.mem_cons_of_mem _ (List.mem_cons_of_mem _
    (List.mem_cons_of_mem _ (List.mem_cons_of_mem _ (List.mem_cons_of_mem _
      (List.mem_cons_of_mem _ (List.mem_cons_self _ _)))))))

theorem getCap_single (b : List Char) : getCap 1 [(1, b)] = b := rfl

/-- The pattern of `_convert_data_fetching` matches a canonical declaration
followed by `rest`, capturing exactly the function body as group 1, whenever
the parameter list has no `)` and the body has no closing brace. -/
theorem dataPat_match (nm ps body rest : List Char) (g : Char) (gt : List Char)
    (hnm : nm = g :: gt) (hg : isSpacePy g = false)
    (hps : ∀ c ∈ ps, c ≠ ')') (hbody : ∀ c ∈ body, c ≠ '\x7d') :
    matchSeq (dataPat nm)
      (chars "export async function " ++
        (nm ++ ('(' :: (ps ++ (')' :: ' ' :: '\x7b' :: (body ++ ('\x7d' :: rest)))))))
      [] [] = some (rest, [(1, body)]) := by
  subst hnm
  have hps' : ∀ c ∈ ps, ((fun c => c != ')') c) = true :=
    fun c hc => bne_iff_ne.mpr (hps c hc)
  have hbody' : ∀ c ∈ body, ((fun c => c != '\x7d') c) = true :=
    fun c hc => bne_iff_ne.mpr (hbody c hc)
  have b0 : matchSeq [] rest [(1, body ++ ('\x7d' :: rest))] [(1, body)] =
      some (rest, [(1, body)]) := matchSeq_nilA rest _ [(1, body)]
  have b1 : matchSeq [Atom.lit (chars "\x7d")] ('\x7d' :: rest)
      [(1, body ++ ('\x7d' :: rest))] [(1, body)] = some (rest, [(1, body)]) :=
    (lit_step (chars "\x7d") rest [] [(1, body ++ ('\x7d' :: rest))] [(1, body)]).trans b0
  have b2 : matchSeq [Atom.closeG 1, Atom.lit (chars "\x7d")] ('\x7d' :: rest)
      [(1, body ++ ('\x7d' :: rest))] [] = some (rest, [(1, body)]) := by
    rw [closeG_step]
    have hlk : (([((1 : Nat), body ++ ('\x7d' :: rest))].lookup 1).getD []) =
        body ++ ('\x7d' :: rest) := rfl
    rw [hlk]
    have harith : (body ++ ('\x7d' :: rest)).length - ('\x7d' :: rest).length =
        body.length := by
      simp [List.length_append, List.length_cons]
    rw [harith]
    have htake : (body ++ ('\x7d' :: rest)).take body.length = body := List.take_left ..
    rw [htake]
    exact b1
  have b3 : matchSeq
      [Atom.starG (fun c => c != '\x7d'), Atom.closeG 1, Atom.lit (chars "\x7d")]
      (body ++ ('\x7d' :: rest)) [(1, body ++ ('\x7d' :: rest))] [] =
      some (rest, [(1, body)]) :=
    starG_runs hbody' (fun d t' h => by cases h; rfl) b2
  have b4 : matchSeq
      [Atom.openG 1, Atom.starG (fun c => c != '\x7d'), Atom.closeG 1,
        Atom.lit (chars "\x7d")]
      (body ++ ('\x7d' :: rest)) [] [] = some (rest, [(1, body)]) := by
    rw [openG_step]
    exact b3
  have b5 : matchSeq
      [Atom.lit (chars "\x7b"), Atom.openG 1, Atom.starG (fun c => c != '\x7d'),
        Atom.closeG 1, Atom.lit (chars "\x7d")]
      ('\x7b' :: (body ++ ('\x7d' :: rest))) [] [] = some (rest, [(1, body)]) :=
    (lit_step (chars "\x7b") (body ++ ('\x7d' :: rest)) _ [] []).trans b4
  have b6 : matchSeq
      (Atom.starG isSpacePy :: Atom.lit (chars "\x7b") :: Atom.openG 1 ::
        Atom.starG (fun c => c != '\x7d') :: Atom.closeG 1 :: [Atom.lit (chars "\x7d")])
      (' ' :: '\x7b' :: (body ++ ('\x7d' :: rest))) [] [] = some (rest, [(1, body)]) := by
    exact @starG_runs isSpacePy [' '] ('\x7b' :: (body ++ ('\x7d' :: rest))) _ _ _ _
      (fun c hc => by cases hc with
        | head => rfl
        | tail _ h2 => exact absurd h2 (List.not_mem_nil c))
      (fun d t' h => by cases h; rfl) b5
  have b7 : matchSeq
      (Atom.lit (chars ")") :: Atom.starG isSpacePy :: Atom.lit (chars "\x7b") ::
        Atom.openG 1 :: Atom.starG (fun c => c != '\x7d') :: Atom.closeG 1 ::
        [Atom.lit (chars "\x7d")])
      (')' :: ' ' :: '\x7b' :: (body ++ ('\x7d' :: rest))) [] [] =
      some (rest, [(1, body)]) :=
    (lit_step (chars ")") (' ' :: '\x7b' :: (body ++ ('\x7d' :: rest))) _ [] []).trans b6
  have b8 : matchSeq
      (Atom.starG (fun c => c != ')') :: Atom.lit (chars ")") :: Atom.starG isSpacePy ::
        Atom.lit (chars "\x7b") :: Atom.openG 1 :: Atom.starG (fun c => c != '\x7d') ::
        Atom.closeG 1 :: [Atom.lit (chars "\x7d")])
      (ps ++ (')' :: ' ' :: '\x7b' :: (body ++ ('\x7d' :: rest)))) [] [] =
      some (rest, [(1, body)]) :=
    starG_runs hps' (fun d t' h => by cases h; rfl) b7
  have b9 : matchSeq
      (Atom.lit (chars "(") :: Atom.starG (fun c => c != ')') :: Atom.lit (chars ")") ::
        Atom.starG isSpacePy :: Atom.lit (chars "\x7b") :: Atom.openG 1 ::
        Atom.starG (fun c => c != '\x7d') :: Atom.closeG 1 :: [Atom.lit (chars "\x7d")])
      ('(' :: (ps ++ (')' :: ' ' :: '\x7b' :: (body ++ ('\x7d' :: rest))))) [] [] =
      some (rest, [(1, body)]) :=
    (lit_step (chars "(") (ps ++ (')' :: ' ' :: '\x7b' :: (body ++ ('\x7d' :: rest))))
      _ [] []).trans b8
  have b10 : matchSeq
      (Atom.starG isSpacePy :: Atom.lit (chars "(") :: Atom.starG (fun c => c != ')') ::
        Atom.lit (chars ")") :: Atom.starG isSpacePy :: Atom.lit (chars "\x7b") ::
        Atom.openG 1 :: Atom.starG (fun c => c != '\x7d') :: Atom.closeG 1 ::
        [Atom.lit (chars "\x7d")])
      ('(' :: (ps ++ (')' :: ' ' :: '\x7b' :: (body ++ ('\x7d' :: rest))))) [] [] =
      some (rest, [(1, body)]) :=
    (starG_stop (by decide) _ _ [] []).trans b9
  have b11 : matchSeq
      (Atom.lit (g :: gt) :: Atom.starG isSpacePy :: Atom.lit (chars "(") ::
        Atom.starG (fun c => c != ')') :: Atom.lit (chars ")") :: Atom.starG isSpacePy ::
        Atom.lit (chars "\x7b") :: Atom.openG 1 :: Atom.starG (fun c => c != '\x7d') ::
        Atom.closeG 1 :: [Atom.lit (chars "\x7d")])
      ((g :: gt) ++ ('(' :: (ps ++ (')' :: ' ' :: '\x7b' :: (body ++ ('\x7d' :: rest))))))
      [] [] = some (rest, [(1, body)]) :=
    (lit_step (g :: gt) ('(' :: (ps ++ (')' :: ' ' :: '\x7b' :: (body ++ ('\x7d' :: rest)))))
      _ [] []).trans b10
  have b12 := (@plus_one_step isSpacePy ' ' g (by decide) hg
    _ (gt ++ ('(' :: (ps ++ (')' :: ' ' :: '\x7b' :: (body ++ ('\x7d' :: rest)))))) [] []).trans b11
  have b13 := (lit_step (chars "function")
    (' ' :: ((g :: gt) ++ ('(' :: (ps ++ (')' :: ' ' :: '\x7b' :: (body ++ ('\x7d' :: rest)))))))
    _ [] []).trans b12
  have b14 := (@plus_one_step isSpacePy ' ' 'f' (by decide) (by decide)
    _ _ [] []).trans b13
  have b15 := (lit_step (chars "async")
    (' ' :: (chars "function" ++ (' ' :: ((g :: gt) ++
      ('(' :: (ps ++ (')' :: ' ' :: '\x7b' :: (body ++ ('\x7d' :: rest)))))))))
    _ [] []).trans b14
  have b16 := (@plus_one_step isSpacePy ' ' 'a' (by decide) (by decide)
    _ _ [] []).trans b15
  have b17 := (lit_step (chars "export")
    (' ' :: (chars "async" ++ (' ' :: (chars "function" ++ (' ' :: ((g :: gt) ++
      ('(' :: (ps ++ (')' :: ' ' :: '\x7b' :: (body ++ ('\x7d' :: rest)))))))))))
    _ [] []).trans b16
  exact b17

/-- A text containing neither space nor newline and absent from the fixed
template parts and from the body does not occur in the generated effect
block. -/
theorem no_occurs_effect (cs body : List Char)
    (h1 : pySubstr cs useEffectPre0 = false)
    (h2 : pySubstr cs body = false)
    (h3 : pySubstr cs useEffectPost0 = false)
    (hsp : ' ' ∉ cs) (hnl : '\n' ∉ cs) :
    ¬ Occurs cs (convert_to_use_effect body) := by
  intro h
  have h' : Occurs cs (useEffectPre0 ++ ' ' :: (body ++ '\n' :: useEffectPost0)) := h
  rcases @occurs_break cs useEffectPre0 (body ++ '\n' :: useEffectPost0) ' ' hsp h'
    with hA | hB
  · rw [← pySubstr_iff] at hA
    simp [h1] at hA
  · rcases @occurs_break cs body useEffectPost0 '\n' hnl hB with hC | hD
    · rw [← pySubstr_iff] at hC
      simp [h2] at hC
    · rw [← pySubstr_iff] at hD
      simp [h3] at hD

/-- A text avoiding the punctuation characters of a canonical declaration and
absent from its header, parameters and body does not occur in it. -/
theorem no_occurs_decl (cs NM ps body : List Char) (hne : cs ≠ [])
    (hF : pySubstr cs (chars "export async function " ++ NM) = false)
    (hps : pySubstr cs ps = false) (hbody : pySubstr cs body = false)
    (h1 : '(' ∉ cs) (h2 : ')' ∉ cs) (h3 : ' ' ∉ cs) (h4 : '\x7b' ∉ cs)
    (h5 : '\x7d' ∉ cs) :
    ¬ Occurs cs (fnDecl NM ps body) := by
  intro h
  have h' : Occurs cs ((chars "export async function " ++ NM) ++
      ('(' :: (ps ++ (')' :: ' ' :: '\x7b' :: (body ++ ('\x7d' :: [])))))) := h
  rcases @occurs_break cs (chars "export async function " ++ NM)
      (ps ++ (')' :: ' ' :: '\x7b' :: (body ++ ('\x7d' :: [])))) '(' h1 h' with hA | hB
  · rw [← pySubstr_iff] at hA
    simp [hF] at hA
  · rcases @occurs_break cs ps (' ' :: '\x7b' :: (body ++ ('\x7d' :: []))) ')' h2 hB
      with hC | hD
    · rw [← pySubstr_iff] at hC
      simp [hps] at hC
    · have hD2 := occurs_cons_elim h3 hD
      have hD3 := occurs_cons_elim h4 hD2
      rcases @occurs_break cs body [] '\x7d' h5 hD3 with hE | hE
      · rw [← pySubstr_iff] at hE
        simp [hbody] at hE
      · exact occurs_nil hne hE

/-- `_convert_data_fetching` on a canonical `getStaticProps` declaration:
the whole declaration is replaced by the effect template with the body
inlined verbatim (and the `getServerSideProps` pass then finds nothing). -/
theorem convert_df_static (ps body : List Char)
    (hps : ∀ c ∈ ps, c ≠ ')') (hbody : ∀ c ∈ body, c ≠ '\x7d')
    (hno : pySubstr (chars "getServerSideProps") body = false) :
    convert_data_fetching (fnDecl (chars "getStaticProps") ps body) =
      convert_to_use_effect body := by
  have hm : matchSeq (dataPat (chars "getStaticProps"))
      (fnDecl (chars "getStaticProps") ps body) [] [] = some ([], [(1, body)]) :=
    dataPat_match (chars "getStaticProps") ps body [] 'g' (chars "etStaticProps")
      rfl (by decide) hps hbody
  simp only [convert_data_fetching]
  rw [reSub_whole (dataPat_nil _) hm (fnDecl_ne_nil _ _ _)]
  exact reSub_id_of_no_occurs (lit_name_mem _) _
    (no_occurs_effect (chars "getServerSideProps") body (by decide) hno (by decide)
      (by decide) (by decide))

/-- `_convert_data_fetching` on a canonical `getServerSideProps` declaration:
the `getStaticProps` pass finds nothing, then the declaration is replaced by
the effect template with the body inlined verbatim. -/
theorem convert_df_server (ps body : List Char)
    (hps : ∀ c ∈ ps, c ≠ ')') (hbody : ∀ c ∈ body, c ≠ '\x7d')
    (hnops : pySubstr (chars "getStaticProps") ps = false)
    (hnobody : pySubstr (chars "getStaticProps") body = false) :
    convert_data_fetching (fnDecl (chars "getServerSideProps") ps body) =
      convert_to_use_effect body := by
  simp only [convert_data_fetching]
  rw [reSub_id_of_no_occurs (lit_name_mem _) _
    (no_occurs_decl (chars "getStaticProps") (chars "getServerSideProps") ps body
      (by decide) (by decide) hnops hnobody (by decide) (by decide) (by decide)
      (by decide) (by decide))]
  have hm : matchSeq (dataPat (chars "getServerSideProps"))
      (fnDecl (chars "getServerSideProps") ps body) [] [] = some ([], [(1, body)]) :=
    dataPat_match (chars "getServerSideProps") ps body [] 'g' (chars "etServerSideProps")
      rfl (by decide) hps hbody
  rw [reSub_whole (dataPat_nil _) hm (fnDecl_ne_nil _ _ _)]
  rfl

/-! ### `re.search` positioning and the image attribute extraction (C4 kit) -/

theorem findFirst_at0 {pat : List Atom} {s rest : List Char} {caps : Caps}
    (hm : matchSeq pat s [] [] = some (rest, caps)) :
    findFirst pat s = some (s.take (s.length - rest.length)) := by
  unfold findFirst
  cases s with
  | nil => simp only [List.length_nil, findFirstF, hm]
  | cons c t => simp only [List.length_cons, findFirstF, hm]

theorem findFirst_exact {pat : List Atom} {W R : List Char} {caps : Caps}
    (hm : matchSeq pat (W ++ R) [] [] = some (R, caps)) :
    findFirst pat (W ++ R) = some W := by
  rw [findFirst_at0 hm]
  have hl : (W ++ R).length - R.length = W.length := by
    simp [List.length_append]
  rw [hl, List.take_left]

theorem findFirst_step {pat : List Atom} {c : Char} {t : List Char}
    (hm : matchSeq pat (c :: t) [] [] = none) :
    findFirst pat (c :: t) = findFirst pat t := by
  unfold findFirst
  simp only [List.length_cons, findFirstF, hm]

theorem matchSeq_lit_not_pref {cs : List Char} {ps : List Atom} {s : List Char}
    {op caps : Caps} (h : cs.isPrefixOf s = false) :
    matchSeq (Atom.lit cs :: ps) s op caps = none := by
  rw [matchSeq_lit]
  simp [h]

theorem digit_ne_char {c : Char} (hc : isDigitPy c = true) {d : Char}
    (hd : ('9' : Char) < d) : (c == d) = false := by
  simp only [isDigitPy, Bool.and_eq_true, decide_eq_true_eq] at hc
  exact beq_eq_false_iff_ne.mpr (ne_of_lt (lt_of_le_of_lt hc.2 hd))

theorem digit_rev_ne {c : Char} (hc : isDigitPy c = true) {d : Char}
    (hd : ('9' : Char) < d) : (d == c) = false := by
  simp only [isDigitPy, Bool.and_eq_true, decide_eq_true_eq] at hc
  exact beq_eq_false_iff_ne.mpr (ne_of_gt (lt_of_le_of_lt hc.2 hd))

theorem char_lt_digit_ne {c : Char} (hc : isDigitPy c = true) {d : Char}
    (hd : d < ('0' : Char)) : (c == d) = false := by
  simp only [isDigitPy, Bool.and_eq_true, decide_eq_true_eq] at hc
  exact beq_eq_false_iff_ne.mpr (ne_of_gt (lt_of_lt_of_le hd hc.1))

theorem digit_not_quote {c : Char} (hc : isDigitPy c = true) : isQuotePy c = false := by
  simp [isQuotePy, char_lt_digit_ne hc (show ('\x22' : Char) < '0' by decide),
    char_lt_digit_ne hc (show ('\x27' : Char) < '0' by decide)]

theorem hpref_digit {d : Char} (hd : isDigitPy d = true) (X : List Char) :
    (chars "height=").isPrefixOf (d :: X) = false := by
  have h1 : ('h' == d) = false := digit_rev_ne hd (by decide)
  show (('h' == d) && (chars "eight=").isPrefixOf X) = false
  rw [h1]
  rfl

theorem dropWhile_all_neg {p : Char → Bool} {l : List Char}
    (h : ∀ c ∈ l, p c = false) : l.dropWhile p = l := by
  cases l with
  | nil => rfl
  | cons c r =>
    rw [List.dropWhile_cons_of_neg (by simp [h c (List.mem_cons_self c r)])]

theorem strip_quotes (ds : List Char) (hne : ds ≠ [])
    (hd : ∀ c ∈ ds, isDigitPy c = true) :
    stripPy isQuotePy ('\x22' :: (ds ++ ['\x22'])) = ds := by
  unfold stripPy
  rw [List.dropWhile_cons_of_pos (by decide)]
  cases ds with
  | nil => exact absurd rfl hne
  | cons d ds' =>
    rw [List.cons_append,
      List.dropWhile_cons_of_neg
        (by simp [digit_not_quote (hd d (List.mem_cons_self d ds'))])]
    rw [show (d :: (ds' ++ ['\x22'])).reverse = '\x22' :: (ds'.reverse ++ [d]) from by simp]
    rw [List.dropWhile_cons_of_pos (by decide)]
    rw [dropWhile_all_neg (fun c hc => by
      rcases List.mem_append.mp hc with h1 | h1
      · exact digit_not_quote (hd c (List.mem_cons_of_mem d (List.mem_reverse.mp h1)))
      · rw [List.mem_singleton.mp h1]
        exact digit_not_quote (hd d (List.mem_cons_self d ds')))]
    simp

theorem pySplitAux_no_sep (sep : Char) :
    ∀ (b acc : List Char), (∀ c ∈ b, (c == sep) = false) →
      pySplitAux sep b acc = [acc.reverse ++ b] := by
  intro b
  induction b with
  | nil => intro acc _; simp [pySplitAux]
  | cons c r ih =>
    intro acc hb
    rw [show pySplitAux sep (c :: r) acc = pySplitAux sep r (c :: acc) from by
      simp [pySplitAux, hb c (List.mem_cons_self c r)]]
    rw [ih (c :: acc) (fun x hx => hb x (List.mem_cons_of_mem c hx))]
    simp

theorem pySplitAux_pre (sep : Char) (b : List Char)
    (hb : ∀ c ∈ b, (c == sep) = false) :
    ∀ (a acc : List Char), (∀ c ∈ a, (c == sep) = false) →
      pySplitAux sep (a ++ sep :: b) acc = (acc.reverse ++ a) :: [b] := by
  intro a
  induction a with
  | nil =>
    intro acc _
    rw [List.nil_append]
    rw [show pySplitAux sep (sep :: b) acc = acc.reverse :: pySplitAux sep b [] from by
      simp [pySplitAux]]
    rw [pySplitAux_no_sep sep b [] hb]
    simp
  | cons c r ih =>
    intro acc ha
    rw [List.cons_append]
    rw [show pySplitAux sep (c :: (r ++ sep :: b)) acc =
        pySplitAux sep (r ++ sep :: b) (c :: acc) from by
      simp [pySplitAux, ha c (List.mem_cons_self c r)]]
    rw [ih (c :: acc) (fun x hx => ha x (List.mem_cons_of_mem c hx))]
    simp

theorem pySplit_two (sep : Char) (a b : List Char)
    (ha : ∀ c ∈ a, (c == sep) = false) (hb : ∀ c ∈ b, (c == sep) = false) :
    pySplit sep (a ++ sep :: b) = [a, b] := by
  unfold pySplit
  rw [pySplitAux_pre sep b hb a [] ha]
  simp

theorem height_no_match {s : List Char}
    (h : (chars "height=").isPrefixOf s = false) :
    matchSeq heightPat s [] [] = none := matchSeq_lit_not_pref h

theorem height_step {c : Char} {t : List Char}
    (h : (chars "height=").isPrefixOf (c :: t) = false) :
    findFirst heightPat (c :: t) = findFirst heightPat t :=
  findFirst_step (height_no_match h)

theorem height_step_ne (c : Char) (h : ('h' == c) = false) (t : List Char) :
    findFirst heightPat (c :: t) = findFirst heightPat t :=
  height_step (by
    show (('h' == c) && (chars "eight=").isPrefixOf t) = false
    rw [h]
    rfl)

theorem height_step2 (c2 : Char) (h : ('e' == c2) = false) (t : List Char) :
    findFirst heightPat ('h' :: c2 :: t) = findFirst heightPat (c2 :: t) :=
  height_step (by
    show (('h' == 'h') && (('e' == c2) && (chars "ight=").isPrefixOf t)) = false
    rw [h]
    rfl)

theorem height_skip_digits :
    ∀ (ds : List Char), (∀ c ∈ ds, isDigitPy c = true) → ∀ (rest : List Char),
      findFirst heightPat (ds ++ rest) = findFirst heightPat rest := by
  intro ds
  induction ds with
  | nil => intro _ rest; rw [List.nil_append]
  | cons d ds' ih =>
    intro hds rest
    rw [List.cons_append]
    rw [height_step (hpref_digit (hds d (List.mem_cons_self d ds')) _)]
    exact ih (fun c hc => hds c (List.mem_cons_of_mem d hc)) rest

theorem width_search (ds hs : List Char) (hne : ds ≠ [])
    (hd : ∀ c ∈ ds, isDigitPy c = true) :
    findFirst widthPat (sizeAttrs ds hs) =
      some (chars "width=\x22" ++ (ds ++ ['\x22'])) := by
  have w1 : matchSeq [Atom.one isQuotePy]
      ('\x22' :: (' ' :: (chars "height=\x22" ++ (hs ++ ('\x22' :: [' '])))))
      [] [] = some (' ' :: (chars "height=\x22" ++ (hs ++ ('\x22' :: [' ']))), []) :=
    (@one_step isQuotePy '\x22' rfl [] _ [] []).trans (matchSeq_nilA _ [] [])
  have w2 : matchSeq [Atom.plusG isDigitPy, Atom.one isQuotePy]
      (ds ++ ('\x22' :: (' ' :: (chars "height=\x22" ++ (hs ++ ('\x22' :: [' ']))))))
      [] [] = some (' ' :: (chars "height=\x22" ++ (hs ++ ('\x22' :: [' ']))), []) :=
    plusG_runs hne hd (fun d t' h => by cases h; rfl) w1
  have w3 : matchSeq [Atom.one isQuotePy, Atom.plusG isDigitPy, Atom.one isQuotePy]
      ('\x22' :: (ds ++ ('\x22' :: (' ' :: (chars "height=\x22" ++ (hs ++ ('\x22' :: [' '])))))))
      [] [] = some (' ' :: (chars "height=\x22" ++ (hs ++ ('\x22' :: [' ']))), []) :=
    (@one_step isQuotePy '\x22' rfl _ _ [] []).trans w2
  have w4 : matchSeq widthPat
      (chars "width=" ++
        ('\x22' :: (ds ++ ('\x22' :: (' ' :: (chars "height=\x22" ++ (hs ++ ('\x22' :: [' ']))))))))
      [] [] = some (' ' :: (chars "height=\x22" ++ (hs ++ ('\x22' :: [' ']))), []) :=
    (lit_step (chars "width=") _ _ [] []).trans w3
  have e : (chars "width=\x22" ++ (ds ++ ['\x22'])) ++
      (' ' :: (chars "height=\x22" ++ (hs ++ ('\x22' :: [' '])))) = sizeAttrs ds hs := by
    simp [sizeAttrs]
  have w5 : matchSeq widthPat
      ((chars "width=\x22" ++ (ds ++ ['\x22'])) ++
        (' ' :: (chars "height=\x22" ++ (hs ++ ('\x22' :: [' ']))))) [] [] =
      some (' ' :: (chars "height=\x22" ++ (hs ++ ('\x22' :: [' ']))), []) := by
    rw [e]
    exact w4
  rw [← e]
  exact findFirst_exact w5

theorem height_search (ds hs : List Char) (hd : ∀ c ∈ ds, isDigitPy c = true)
    (hne2 : hs ≠ []) (hd2 : ∀ c ∈ hs, isDigitPy c = true) :
    findFirst heightPat (sizeAttrs ds hs) =
      some (chars "height=\x22" ++ (hs ++ ['\x22'])) := by
  have hskip : findFirst heightPat (sizeAttrs ds hs) =
      findFirst heightPat (chars "height=\x22" ++ (hs ++ ('\x22' :: [' ']))) := by
    show findFirst heightPat
        ('w' :: 'i' :: 'd' :: 't' :: 'h' :: '=' :: '\x22' ::
          (ds ++ ('\x22' :: ' ' :: (chars "height=\x22" ++ (hs ++ ('\x22' :: [' '])))))) = _
    rw [height_step_ne 'w' rfl, height_step_ne 'i' rfl, height_step_ne 'd' rfl,
      height_step_ne 't' rfl, height_step2 '=' rfl, height_step_ne '=' rfl,
      height_step_ne '\x22' rfl]
    rw [height_skip_digits ds hd _]
    rw [height_step_ne '\x22' rfl, height_step_ne ' ' rfl]
  have h1 : matchSeq [Atom.one isQuotePy] ('\x22' :: [' ']) [] [] = some ([' '], []) :=
    (@one_step isQuotePy '\x22' rfl [] [' '] [] []).trans (matchSeq_nilA _ [] [])
  have h2 : matchSeq [Atom.plusG isDigitPy, Atom.one isQuotePy]
      (hs ++ ('\x22' :: [' '])) [] [] = some ([' '], []) :=
    plusG_runs hne2 hd2 (fun d t' h => by cases h; rfl) h1
  have h3 : matchSeq [Atom.one isQuotePy, Atom.plusG isDigitPy, Atom.one isQuotePy]
      ('\x22' :: (hs ++ ('\x22' :: [' ']))) [] [] = some ([' '], []) :=
    (@one_step isQuotePy '\x22' rfl _ _ [] []).trans h2
  have h4 : matchSeq heightPat
      (chars "height=" ++ ('\x22' :: (hs ++ ('\x22' :: [' '])))) [] [] =
      some ([' '], []) :=
    (lit_step (chars "height=") _ _ [] []).trans h3
  have e2 : (chars "height=\x22" ++ (hs ++ ['\x22'])) ++ [' '] =
      chars "height=\x22" ++ (hs ++ ('\x22' :: [' '])) := by simp
  have h5 : matchSeq heightPat
      ((chars "height=\x22" ++ (hs ++ ['\x22'])) ++ [' ']) [] [] = some ([' '], []) := by
    rw [e2]
    exact h4
  rw [hskip, ← e2]
  exact findFirst_exact h5

/-! ### Claim theorems -/

/-- C1: `UIHashVerifier.verify_components` returns `equal = true` exactly when
the MD5 fingerprint of the concatenation of the original's ordered tag tokens
(each substring from a `<` to the first following `>`) equals that fingerprint
of the converted text; when the fingerprints differ, the result carries the
line-level diff of the two full texts, and — as the instance of that mismatch
case the claim points at ("in particular") — any rewrite that deletes or
duplicates a markup element yields `equal = false` together with a non-empty
diff. -/
theorem C1_verifier_fingerprint (o c : List Char) :
    ((verify_components o c).1 = true ↔
      get_component_hash o = get_component_hash c) ∧
    (get_component_hash o ≠ get_component_hash c →
      (verify_components o c).2 = unifiedDiff (splitlinesPy o) (splitlinesPy c) ∧
      ∀ u t v, IsTagToken t → o = u ++ t ++ v →
        (c = u ++ v ∨ c = u ++ t ++ t ++ v) →
        (verify_components o c).1 = false ∧ (verify_components o c).2 ≠ []) := by
  constructor
  · by_cases h : get_component_hash o = get_component_hash c <;>
      simp [verify_components, h]
  · intro hne
    refine ⟨by simp [verify_components, hne], ?_⟩
    rintro u t v ⟨mid, rfl, hmid⟩ rfl hc
    refine ⟨by unfold verify_components; rw [if_neg hne], ?_⟩
    have ht : 1 ≤ nbCount ('<' :: (mid ++ ['>'])) := by
      rw [nbCount_cons]
      simp [isLineBreakPy]
    have hdiff : nbCount (u ++ ('<' :: (mid ++ ['>'])) ++ v) ≠ nbCount c := by
      rcases hc with rfl | rfl <;> simp only [nbCount_append] <;> omega
    have hsp : splitlinesPy (u ++ ('<' :: (mid ++ ['>'])) ++ v) ≠ splitlinesPy c :=
      splitlines_ne hdiff
    unfold verify_components
    rw [if_neg hne]
    exact unifiedDiff_ne_nil hsp

set_option maxRecDepth 200000 in
/-- Witness for C1 at a concrete deletion: removing the markup element `<q>`
from `ab<p>\n<q>cd` changes the fingerprint and verification reports
`equal = false` with a non-empty diff. -/
theorem C1_witness :
    get_component_hash (chars "ab<p>\n<q>cd") ≠ get_component_hash (chars "ab<p>\ncd") ∧
    (verify_components (chars "ab<p>\n<q>cd") (chars "ab<p>\ncd")).1 = false ∧
    (verify_components (chars "ab<p>\n<q>cd") (chars "ab<p>\ncd")).2 ≠ [] := by
  have hne : get_component_hash (chars "ab<p>\n<q>cd") ≠
      get_component_hash (chars "ab<p>\ncd") := by decide
  have h := (C1_verifier_fingerprint (chars "ab<p>\n<q>cd") (chars "ab<p>\ncd")).2 hne
  have h2 := h.2 (chars "ab<p>\n") (chars "<q>") (chars "cd")
    ⟨chars "q", by decide, by decide⟩ (by decide) (Or.inl (by decide))
  exact ⟨hne, h2.1, h2.2⟩

/-- C5: `nextjs_converterV2.py` defines `should_skip_path` over
`EXCLUDED_PATTERNS`, but `ProjectAnalyzer.analyze` never calls it: a file
under `node_modules` is flagged by `should_skip_path`, yet the analysis loop
still classifies it and it appears in the manifest's `components` list. -/
theorem C5_exclusion_not_applied :
    should_skip_path [chars "node_modules", chars "components", chars "button.jsx"] = true ∧
    (analyzeFiles [([chars "node_modules", chars "components", chars "button.jsx"],
        some (chars "import React from \x27react\x27"))]).components =
      [chars "node_modules/components/button.jsx"] := by
  exact ⟨by decide, by decide⟩

/-- C6 counterexample: an unreadable script file under a `pages` segment is
not classified as a page — the `pages` path rule sits inside the
content-reading branch, which an unreadable file skips entirely — so the
claim "a file under a pages segment is classified as a page" fails; the file
is left unclassified (`none`). -/
theorem C6_counterexample :
    categorize_file [chars "pages", chars "index.jsx"] none = none := by decide

/-- C6 amended: for an unreadable file, `_categorize_file` applies only the
config-name rule, the style-extension rule and the public/assets path rule
(the pages/layouts/components/api rules are all skipped together with the
content branch); a file matching none of these is `None` (unclassified), and
no error escapes. -/
theorem C6_unreadable_path_only (p : List (List Char)) :
    categorize_file p none = categorize_unreadable_spec p := by
  unfold categorize_file categorize_unreadable_spec
  by_cases hc : pathName p ∈ configNames <;>
    by_cases hs : pySuffix (pathName p) ∈ styleSuffixes <;>
      by_cases hj : pySuffix (pathName p) ∈ jsSuffixes <;>
        simp [hc, hs, hj]

/-- C7: batch isolation in `convert_with_progress`: the batch result has one
entry per scheduled task, each task's entry is computed from that task's own
input alone, and a task whose read raises (an I/O error) yields
`(success = false, its own error, no output)` without affecting any other
entry. -/
theorem C7_batch_isolation (ts : List (List Char × Except (List Char) (List Char))) :
    (batch_results ts).length = ts.length ∧
    ∀ (i : Nat) (t : List Char × Except (List Char) (List Char)), ts[i]? = some t →
      (batch_results ts)[i]? = some (convert_component t.1 t.2) ∧
      ∀ e, t.2 = Except.error e →
        convert_component t.1 t.2 = (false, some e, none) := by
  refine ⟨by simp [batch_results], ?_⟩
  intro i t ht
  constructor
  · simp [batch_results, List.getElem?_map, ht]
  · intro e he
    obtain ⟨p, r⟩ := t
    simp only at he
    subst he
    rfl

/-- Witness for C7: a three-task batch whose middle task fails with an I/O
error; the batch has three entries and the failing task alone reports the
error. -/
theorem C7_witness :
    (batch_results [(chars "a.jsx", Except.ok (chars "hello")),
      (chars "b.jsx", Except.error (chars "io error")),
      (chars "c.jsx", Except.ok (chars "x<p>y</p>"))]).length = 3 ∧
    (batch_results [(chars "a.jsx", Except.ok (chars "hello")),
      (chars "b.jsx", Except.error (chars "io error")),
      (chars "c.jsx", Except.ok (chars "x<p>y</p>"))])[1]? =
      some (convert_component (chars "b.jsx") (Except.error (chars "io error"))) ∧
    convert_component (chars "b.jsx") (Except.error (chars "io error")) =
      (false, some (chars "io error"), none) := by
  have h := C7_batch_isolation [(chars "a.jsx", Except.ok (chars "hello")),
    (chars "b.jsx", Except.error (chars "io error")),
    (chars "c.jsx", Except.ok (chars "x<p>y</p>"))]
  refine ⟨h.1.trans (by rfl), ?_, ?_⟩
  · exact (h.2 1 (chars "b.jsx", Except.error (chars "io error")) rfl).1
  · exact (h.2 1 (chars "b.jsx", Except.error (chars "io error")) rfl).2
      (chars "io error") rfl

set_option maxRecDepth 200000 in
/-- C2 counterexample: the claim also cites `ConverterGUI._convert_files`
(`nextjs_converter.py`), but that path writes whatever `convert_file` returns
with no verification at all: converting `<Head>x</Head>` writes
`<Helmet>x</Helmet>`, a text that fails the structural verification. -/
theorem C2_counterexample :
    gui_written (some (chars "<Head>x</Head>")) = some (chars "<Helmet>x</Helmet>") ∧
    (verify_components (chars "<Head>x</Head>") (chars "<Helmet>x</Helmet>")).1 = false := by
  exact ⟨by decide, by decide⟩

/-- C2 amended: in `NextToReactConverter.convert_component` (`converter.py`)
the claim does hold: the task succeeds and its output is written exactly when
verification of (original, transformed) returns `equal = true`; on a mismatch
the task fails carrying the diff message and nothing is written. -/
theorem C2_write_gate (path original : List Char) :
    ((convert_component path (Except.ok original)).1 = true ↔
      (verify_components original (transform_component original)).1 = true) ∧
    ((verify_components original (transform_component original)).1 = true →
      convert_component path (Except.ok original) =
        (true, none, some (transform_component original))) ∧
    ((verify_components original (transform_component original)).1 = false →
      convert_component path (Except.ok original) =
        (false,
          some (mismatchMsg path
            (verify_components original (transform_component original)).2),
          none)) := by
  unfold convert_component
  by_cases hv : (verify_components original (transform_component original)).1 = true
  · simp [hv]
  · simp [hv]

set_option maxRecDepth 200000 in
/-- Witness for C2: a verbatim-preserved text is written; an `Image` tag whose
rewrite drops attributes fails verification and is not written. -/
theorem C2_witness :
    (verify_components (chars "hello") (transform_component (chars "hello"))).1 = true ∧
    convert_component (chars "t.jsx") (Except.ok (chars "hello")) =
      (true, none, some (transform_component (chars "hello"))) ∧
    (verify_components (chars "<Image src=\x22/i.png\x22 />")
      (transform_component (chars "<Image src=\x22/i.png\x22 />"))).1 = false ∧
    convert_component (chars "t.jsx") (Except.ok (chars "<Image src=\x22/i.png\x22 />")) =
      (false,
        some (mismatchMsg (chars "t.jsx")
          (verify_components (chars "<Image src=\x22/i.png\x22 />")
            (transform_component (chars "<Image src=\x22/i.png\x22 />"))).2),
        none) := by
  refine ⟨by decide, (C2_write_gate (chars "t.jsx") (chars "hello")).2.1 (by decide),
    by decide,
    (C2_write_gate (chars "t.jsx") (chars "<Image src=\x22/i.png\x22 />")).2.2 (by decide)⟩

set_option maxRecDepth 200000 in
/-- C3 counterexample: the component rewrite changes only the tag names of a
matched construct (`<Head>hi</Head>` to `<Helmet>hi</Helmet>`), yet
verification fails: the fingerprint hashes the tag text itself, so any tag
rename (including the ones the stages perform) breaks it. -/
theorem C3_counterexample :
    convert_components (chars "<Head>hi</Head>") = chars "<Helmet>hi</Helmet>" ∧
    (verify_components (chars "<Head>hi</Head>") (chars "<Helmet>hi</Helmet>")).1 = false := by
  exact ⟨by decide, by decide⟩

/-- C3 amended: verification succeeds exactly on the texts whose concatenated
tag-token sequences agree — a rewrite passes the verifier iff it preserves the
concatenation of the `<...>` tokens, not merely their count or structure. -/
theorem C3_tag_preserving (o c : List Char)
    (h : (jsx_elements o).flatten = (jsx_elements c).flatten) :
    (verify_components o c).1 = true := by
  unfold verify_components
  rw [show get_component_hash o = get_component_hash c from by
    unfold get_component_hash
    rw [h]]
  simp

/-- Witness for C3: texts differing only outside the tags verify as equal. -/
theorem C3_witness :
    (jsx_elements (chars "<a>x</a>")).flatten = (jsx_elements (chars "<a>y</a>")).flatten ∧
    (verify_components (chars "<a>x</a>") (chars "<a>y</a>")).1 = true :=
  ⟨by decide, C3_tag_preserving (chars "<a>x</a>") (chars "<a>y</a>") (by decide)⟩

set_option maxRecDepth 200000 in
/-- C4 counterexample: on the claim's own scenario (a router-hook import and
an optimized-image tag with `alt="pic" width="200" height="100"`), the rewrite
does not keep the attributes verbatim: `alt` is dropped entirely, the quotes
of `width`/`height` are stripped (`width=200`, not `width="200"`), and
verification reports `equal = false`, not `true`. -/
theorem C4_counterexample :
    transform_component
        (chars "import \x7b useRouter \x7d from \x27next/router\x27\n<Image alt=\x22pic\x22 src=\x22/i.png\x22 width=\x22200\x22 height=\x22100\x22 />") =
      chars "import \x7b useNavigate, useLocation \x7d from \x22react-router-dom\x22\n<img src=\x22/i.png\x22 width=200 height=100 loading=\x22lazy\x22 />" ∧
    pySubstr (chars "width=\x22200\x22")
      (chars "import \x7b useNavigate, useLocation \x7d from \x22react-router-dom\x22\n<img src=\x22/i.png\x22 width=200 height=100 loading=\x22lazy\x22 />") = false ∧
    pySubstr (chars "alt=")
      (chars "import \x7b useNavigate, useLocation \x7d from \x22react-router-dom\x22\n<img src=\x22/i.png\x22 width=200 height=100 loading=\x22lazy\x22 />") = false ∧
    (verify_components
      (chars "import \x7b useRouter \x7d from \x27next/router\x27\n<Image alt=\x22pic\x22 src=\x22/i.png\x22 width=\x22200\x22 height=\x22100\x22 />")
      (chars "import \x7b useNavigate, useLocation \x7d from \x22react-router-dom\x22\n<img src=\x22/i.png\x22 width=200 height=100 loading=\x22lazy\x22 />")).1 = false := by
  exact ⟨by decide, by decide, by decide, by decide⟩

/-- C4 amended: what `_convert_image_tag` actually does with quoted numeric
sizes: for any digit strings DS and HS, the captured attribute text
`width="DS" height="HS" ` yields `<img src=SRC width=DS height=HS
loading="lazy" />` — the numeric values are carried through but their quotes
are stripped, and every other attribute is dropped. -/
theorem C4_image_rewrite (ds hs src : List Char)
    (hne : ds ≠ []) (hd : ∀ c ∈ ds, isDigitPy c = true)
    (hne2 : hs ≠ []) (hd2 : ∀ c ∈ hs, isDigitPy c = true) :
    convert_image_tag (sizeAttrs ds hs) src [] =
      chars "<img src=" ++ src ++ chars " width=" ++ ds ++ chars " height=" ++ hs ++
        chars " loading=\x22lazy\x22 />" := by
  have hbw : ∀ c ∈ '\x22' :: (ds ++ ['\x22']), (c == '=') = false := by
    intro c hc
    rcases List.mem_cons.mp hc with rfl | hc2
    · rfl
    · rcases List.mem_append.mp hc2 with h1 | h1
      · exact digit_ne_char (hd c h1) (by decide)
      · rw [List.mem_singleton.mp h1]
        rfl
  have hbh : ∀ c ∈ '\x22' :: (hs ++ ['\x22']), (c == '=') = false := by
    intro c hc
    rcases List.mem_cons.mp hc with rfl | hc2
    · rfl
    · rcases List.mem_append.mp hc2 with h1 | h1
      · exact digit_ne_char (hd2 c h1) (by decide)
      · rw [List.mem_singleton.mp h1]
        rfl
  have hw : (pySplit '=' (chars "width=\x22" ++ (ds ++ ['\x22']))).getD 1 [] =
      '\x22' :: (ds ++ ['\x22']) := by
    rw [show pySplit '=' (chars "width=\x22" ++ (ds ++ ['\x22'])) =
        pySplit '=' (chars "width" ++ ('=' :: ('\x22' :: (ds ++ ['\x22'])))) from rfl]
    rw [pySplit_two '=' (chars "width") ('\x22' :: (ds ++ ['\x22'])) (by decide) hbw]
    rfl
  have hh : (pySplit '=' (chars "height=\x22" ++ (hs ++ ['\x22']))).getD 1 [] =
      '\x22' :: (hs ++ ['\x22']) := by
    rw [show pySplit '=' (chars "height=\x22" ++ (hs ++ ['\x22'])) =
        pySplit '=' (chars "height" ++ ('=' :: ('\x22' :: (hs ++ ['\x22'])))) from rfl]
    rw [pySplit_two '=' (chars "height") ('\x22' :: (hs ++ ['\x22'])) (by decide) hbh]
    rfl
  simp only [convert_image_tag, List.append_nil,
    width_search ds hs hne hd, height_search ds hs hd hne2 hd2]
  rw [hw, hh, strip_quotes ds hne hd, strip_quotes hs hne2 hd2]
  have hi : List.intercalate (chars " ")
      ([chars "width=" ++ ds] ++ [chars "height=" ++ hs]) =
      (chars "width=" ++ ds) ++ (chars " " ++ (chars "height=" ++ hs)) := by
    simp [List.intercalate, List.intersperse]
  rw [hi]
  simp only [List.append_assoc]
  rfl

/-- Witness for C4 at the claim's sizes 200 and 100. -/
theorem C4_witness :
    (∀ c ∈ chars "200", isDigitPy c = true) ∧
    convert_image_tag (sizeAttrs (chars "200") (chars "100")) (chars "\x22/i.png\x22") [] =
      chars "<img src=" ++ chars "\x22/i.png\x22" ++ chars " width=" ++ chars "200" ++
        chars " height=" ++ chars "100" ++ chars " loading=\x22lazy\x22 />" :=
  ⟨by decide, C4_image_rewrite (chars "200") (chars "100") (chars "\x22/i.png\x22")
    (by decide) (by decide) (by decide) (by decide)⟩

set_option maxRecDepth 200000 in
/-- C8 counterexample: `_convert_imports` is not idempotent.  The import
pattern `import\s+.*?\s+from\s+['"]next/router['"]` can leave a further
`from 'next/router'` tail in place (the lazy `.*?` stops at the first
`from`), and a second application rewrites the output again. -/
theorem C8_counterexample :
    convert_imports (convert_imports
        (chars "import a from \x27next/router\x27 from \x27next/router\x27")) ≠
      convert_imports (chars "import a from \x27next/router\x27 from \x27next/router\x27") := by
  decide

/-- C8 amended: whenever the output of `_convert_imports` no longer mentions
any of the four rewritten module names, a second application is the
identity — idempotence holds exactly on outputs free of the `next/...`
module strings. -/
theorem C8_idem (s : List Char)
    (h1 : pySubstr (chars "next/router") (convert_imports s) = false)
    (h2 : pySubstr (chars "next/link") (convert_imports s) = false)
    (h3 : pySubstr (chars "next/image") (convert_imports s) = false)
    (h4 : pySubstr (chars "next/head") (convert_imports s) = false) :
    convert_imports (convert_imports s) = convert_imports s := by
  have no : ∀ (m : List Char), pySubstr m (convert_imports s) = false →
      ¬ Occurs m (convert_imports s) := by
    intro m hm ho
    rw [(pySubstr_iff m (convert_imports s)).mpr ho] at hm
    exact Bool.true_eq_false.mp hm
  generalize hgen : convert_imports s = c at h1 h2 h3 h4 no ⊢
  simp only [convert_imports]
  rw [reSub_id_of_no_occurs (mod_lit_mem (chars "next/router")) _ (no _ h1),
    reSub_id_of_no_occurs (mod_lit_mem (chars "next/link")) _ (no _ h2),
    reSub_id_of_no_occurs (mod_lit_mem (chars "next/image")) _ (no _ h3),
    reSub_id_of_no_occurs (mod_lit_mem (chars "next/head")) _ (no _ h4)]

set_option maxRecDepth 200000 in
/-- Witness for C8: an already-converted import text is a fixed point. -/
theorem C8_witness :
    (pySubstr (chars "next/router")
        (convert_imports (chars "import x from \x27next/head\x27")) = false) ∧
    convert_imports (convert_imports (convert_imports (chars "import x from \x27next/head\x27"))) =
      convert_imports (convert_imports (chars "import x from \x27next/head\x27")) := by
  refine ⟨by decide, C8_idem (convert_imports (chars "import x from \x27next/head\x27"))
    (by decide) (by decide) (by decide) (by decide)⟩

set_option maxRecDepth 200000 in
/-- C9 counterexample: the pattern's body group is `[^}]*`, which stops at the
first `}`.  For `getStaticProps` returning the nested object
`{ props: { a: 1 } }`, the generated effect does not contain the function's
body verbatim: it is truncated at the first closing brace (the seam with the
generated `setData(props)` line shows the cut), and the leftover ` } }` of the
original declaration survives outside the generated block. -/
theorem C9_counterexample :
    pySubstr (chars "return \x7b props: \x7b a: 1 \x7d \x7d")
      (convert_data_fetching
        (chars "export async function getStaticProps() \x7b return \x7b props: \x7b a: 1 \x7d \x7d \x7d")) = false ∧
    pySubstr (chars " return \x7b props: \x7b a: 1 \n            setData(props);")
      (convert_data_fetching
        (chars "export async function getStaticProps() \x7b return \x7b props: \x7b a: 1 \x7d \x7d \x7d")) = true := by
  exact ⟨by decide, by decide⟩

/-- C9 amended: for a canonical declaration whose body contains no `}` (and no
other data-fetching name), both rewrites inline the captured body verbatim
between the fixed effect prologue (which introduces the `data`/`loading`
state, the run-once effect and the `try` with `setLoading(true)`) and the
fixed epilogue (the `catch` logging and the `finally` clearing `loading`). -/
theorem C9_body_inlined (ps body : List Char)
    (hps : ∀ c ∈ ps, c ≠ ')') (hbody : ∀ c ∈ body, c ≠ '\x7d')
    (hnops : pySubstr (chars "getStaticProps") ps = false)
    (hnostatic : pySubstr (chars "getStaticProps") body = false)
    (hnoserver : pySubstr (chars "getServerSideProps") body = false) :
    convert_data_fetching (fnDecl (chars "getStaticProps") ps body) =
      useEffectPre ++ body ++ useEffectPost ∧
    convert_data_fetching (fnDecl (chars "getServerSideProps") ps body) =
      useEffectPre ++ body ++ useEffectPost :=
  ⟨(convert_df_static ps body hps hbody hnoserver).trans rfl,
   (convert_df_server ps body hps hbody hnops hnostatic).trans rfl⟩

/-- Witness for C9 with the brace-free body ` fetch(); `. -/
theorem C9_witness :
    convert_data_fetching (fnDecl (chars "getStaticProps") [] (chars " fetch(); ")) =
      useEffectPre ++ chars " fetch(); " ++ useEffectPost ∧
    convert_data_fetching (fnDecl (chars "getServerSideProps") [] (chars " fetch(); ")) =
      useEffectPre ++ chars " fetch(); " ++ useEffectPost :=
  C9_body_inlined [] (chars " fetch(); ") (by decide) (by decide) (by decide)
    (by decide) (by decide)

set_option maxRecDepth 200000 in
/-- C10 counterexample: the two fetch forms are not interchangeable for every
body.  With the body ` export async function getServerSideProps() \x7b aaa `
(no `}`), the `getStaticProps` file is rewritten twice — the generated effect
text itself is matched by the second pattern — while the `getServerSideProps`
file is rewritten once, and the outputs differ. -/
theorem C10_counterexample :
    convert_data_fetching (fnDecl (chars "getStaticProps") []
        (chars " export async function getServerSideProps() \x7b aaa ")) ≠
      convert_data_fetching (fnDecl (chars "getServerSideProps") []
        (chars " export async function getServerSideProps() \x7b aaa ")) := by
  decide

/-- C10 amended: for canonical declarations whose body is brace-free and
mentions neither fetch name, the two forms do convert to identical texts:
both matches are routed through the same `_convert_to_use_effect`. -/
theorem C10_same_output (ps body : List Char)
    (hps : ∀ c ∈ ps, c ≠ ')') (hbody : ∀ c ∈ body, c ≠ '\x7d')
    (hnops : pySubstr (chars "getStaticProps") ps = false)
    (hnostatic : pySubstr (chars "getStaticProps") body = false)
    (hnoserver : pySubstr (chars "getServerSideProps") body = false) :
    convert_data_fetching (fnDecl (chars "getStaticProps") ps body) =
      convert_data_fetching (fnDecl (chars "getServerSideProps") ps body) :=
  (convert_df_static ps body hps hbody hnoserver).trans
    (convert_df_server ps body hps hbody hnops hnostatic).symm

/-- Witness for C10 with the brace-free body ` load(); `. -/
theorem C10_witness :
    convert_data_fetching (fnDecl (chars "getStaticProps") [] (chars " load(); ")) =
      convert_data_fetching (fnDecl (chars "getServerSideProps") [] (chars " load(); ")) :=
  C10_same_output [] (chars " load(); ") (by decide) (by decide) (by decide)
    (by decide) (by decide)

end NextConv

